import Mathlib

/-!
# rdl-gen-json-schema: export of RDL types to a JSON Schema document

A shallow embedding of `rdl-gen-json-schema.go` (functions `jsGenerate` and
`jsTypeDef`) together with the part of the `rdl` schema model those functions
read, followed by theorems about the generated document.

Conventions of the embedding

* A Go `map[string]interface{}` is an association list with unique keys:
  `JSON.set` overwrites the value of a key already present and appends a new
  key otherwise. The order of the list is the order of first insertion; Go
  itself does not expose an order.
* A Go panic (explicit, or a nil pointer dereference) is `Except.error`.
* `jsTypeDef` assigns to `f.Items` of the field definitions it walks (line 158).
  The fields are reached through pointers, so the assignment is visible to the
  caller: the embedding returns the type after the call next to the fragment.
* A `*rdl.Type` is a tag together with one payload pointer per variant. The
  embedding uses a sum type, one constructor per tag, carrying the payload that
  belongs to the tag. The test `t.StringTypeDef != nil` of line 259 is the test
  for the constructor `StringTypeDef`.
* The advisory line printed for a union (line 255) is not part of the result
  and is not modelled.
-/

namespace rdl

/-- A reference to a type by name (`rdl.TypeRef`). -/
abbrev TypeRef := String

/-- The name of a declared type (`rdl.TypeName`). -/
abbrev TypeName := String

/-- Modelled from the spec: the enumeration `rdl.BaseType` of the schema
library, which is not part of the source. Section 3 of the spec lists its
members. -/
inductive BaseType where
  | BaseTypeInt8 | BaseTypeInt16 | BaseTypeInt32 | BaseTypeInt64
  | BaseTypeFloat32 | BaseTypeFloat64 | BaseTypeString | BaseTypeBool
  | BaseTypeTimestamp | BaseTypeUUID | BaseTypeSymbol | BaseTypeArray
  | BaseTypeMap | BaseTypeStruct | BaseTypeEnum | BaseTypeUnion | BaseTypeAny
  deriving DecidableEq, Repr


/-- Modelled from the spec: the method `String()` of `rdl.BaseType`, which is
not part of the source. It gives the symbol of the member as section 3 of the
spec lists it. The source relies on this capitalised form: wherever it derives
a JSON Schema keyword from a type name it lower-cases the name first (lines
114, 124, 165, 193 and the retired line 183, which lower-cases the result of
this very method). -/
def BaseType.String : BaseType → TypeName
  | .BaseTypeInt8 => "Int8"
  | .BaseTypeInt16 => "Int16"
  | .BaseTypeInt32 => "Int32"
  | .BaseTypeInt64 => "Int64"
  | .BaseTypeFloat32 => "Float32"
  | .BaseTypeFloat64 => "Float64"
  | .BaseTypeString => "String"
  | .BaseTypeBool => "Bool"
  | .BaseTypeTimestamp => "Timestamp"
  | .BaseTypeUUID => "UUID"
  | .BaseTypeSymbol => "Symbol"
  | .BaseTypeArray => "Array"
  | .BaseTypeMap => "Map"
  | .BaseTypeStruct => "Struct"
  | .BaseTypeEnum => "Enum"
  | .BaseTypeUnion => "Union"
  | .BaseTypeAny => "Any"

/-- Every member of the enumeration, in the order of section 3 of the spec. -/
def BaseType.all : List BaseType :=
  [.BaseTypeInt8, .BaseTypeInt16, .BaseTypeInt32, .BaseTypeInt64, .BaseTypeFloat32,
   .BaseTypeFloat64, .BaseTypeString, .BaseTypeBool, .BaseTypeTimestamp, .BaseTypeUUID,
   .BaseTypeSymbol, .BaseTypeArray, .BaseTypeMap, .BaseTypeStruct, .BaseTypeEnum,
   .BaseTypeUnion, .BaseTypeAny]

/-- A field of a struct (`rdl.StructFieldDef`): the members the generator reads. -/
structure StructFieldDef where
  Name : String
  Type_ : TypeRef
  Optional : Bool
  Items : TypeRef
  Comment : String
  deriving DecidableEq, Repr

/-- Payload of a struct type (`rdl.StructTypeDef`). -/
structure StructTypeDef where
  Type_ : TypeRef
  Name : TypeName
  Comment : String
  Fields : List StructFieldDef
  deriving DecidableEq, Repr

/-- Payload of a map type (`rdl.MapTypeDef`). -/
structure MapTypeDef where
  Type_ : TypeRef
  Name : TypeName
  Comment : String
  Keys : TypeRef
  Items : TypeRef
  deriving DecidableEq, Repr

/-- Payload of an array type (`rdl.ArrayTypeDef`). -/
structure ArrayTypeDef where
  Type_ : TypeRef
  Name : TypeName
  Comment : String
  Items : TypeRef
  deriving DecidableEq, Repr

/-- One element of an enum (`rdl.EnumElementDef`). -/
structure EnumElementDef where
  Symbol : String
  Comment : String
  deriving DecidableEq, Repr

/-- Payload of an enum type (`rdl.EnumTypeDef`). -/
structure EnumTypeDef where
  Type_ : TypeRef
  Name : TypeName
  Comment : String
  Elements : List EnumElementDef
  deriving DecidableEq, Repr

/-- Payload of a union type (`rdl.UnionTypeDef`). -/
structure UnionTypeDef where
  Type_ : TypeRef
  Name : TypeName
  Comment : String
  Variants : List TypeRef
  deriving DecidableEq, Repr

/-- Payload of a constrained string type (`rdl.StringTypeDef`); `MinSize` and
`MaxSize` are `*int32` in the library, `none` being the nil pointer. -/
structure StringTypeDef where
  Type_ : TypeRef
  Name : TypeName
  Comment : String
  Pattern : String
  MinSize : Option Int
  MaxSize : Option Int
  deriving DecidableEq, Repr

/-- Payload of an unadorned alias (`rdl.AliasTypeDef`). -/
structure AliasTypeDef where
  Type_ : TypeRef
  Name : TypeName
  Comment : String
  deriving DecidableEq, Repr

/-- A type of the schema (`rdl.Type`): the variant tag with its payload. -/
inductive RdlType where
  | BaseType (b : BaseType)
  | StructTypeDef (d : StructTypeDef)
  | MapTypeDef (d : MapTypeDef)
  | ArrayTypeDef (d : ArrayTypeDef)
  | EnumTypeDef (d : EnumTypeDef)
  | UnionTypeDef (d : UnionTypeDef)
  | StringTypeDef (d : StringTypeDef)
  | AliasTypeDef (d : AliasTypeDef)
  deriving DecidableEq, Repr

/-- A schema (`rdl.Schema`): its name and its types in declaration order. -/
structure Schema where
  Name : String
  Types : List RdlType
  deriving DecidableEq, Repr

/-- Modelled from the spec: `rdl.TypeInfo`, which is not part of the source.
It returns the name, the supertype reference and the comment of a type; every
variant carries them (section 3). A built-in type is named by its symbol. -/
def TypeInfo : RdlType → TypeName × TypeRef × String
  | .BaseType b => (b.String, "", "")
  | .StructTypeDef d => (d.Name, d.Type_, d.Comment)
  | .MapTypeDef d => (d.Name, d.Type_, d.Comment)
  | .ArrayTypeDef d => (d.Name, d.Type_, d.Comment)
  | .EnumTypeDef d => (d.Name, d.Type_, d.Comment)
  | .UnionTypeDef d => (d.Name, d.Type_, d.Comment)
  | .StringTypeDef d => (d.Name, d.Type_, d.Comment)
  | .AliasTypeDef d => (d.Name, d.Type_, d.Comment)

/-- The interface `rdl.TypeRegistry`, restricted to the three methods the
generator calls. `FindType` returns a pointer, `none` being nil; `BaseType`
accepts such a pointer. -/
structure TypeRegistry where
  FindType : TypeRef → Option RdlType
  FindBaseType : TypeRef → BaseType
  BaseType : Option RdlType → BaseType

end rdl

/-- A value stored in a Go `map[string]interface{}` by the generator: a string,
an `int32` (the sizes of a string type), a `[]string` (the nil slice is the
empty list) or a nested map. -/
inductive JSON where
  | str (s : String)
  | num (n : Int)
  | strs (l : List String)
  | obj (kvs : List (String × JSON))
  deriving Repr

namespace JSON

/-- A Go map from strings to values. -/
abbrev Obj := List (String × JSON)

/-- The Go assignment `m[k] = v`. -/
def set : Obj → String → JSON → Obj
  | [], k, v => [(k, v)]
  | (k', v') :: rest, k, v => if k' = k then (k, v) :: rest else (k', v') :: set rest k v

/-- The Go lookup `m[k]`, `none` when the key is absent. -/
def get : Obj → String → Option JSON
  | [], _ => none
  | (k', v') :: rest, k => if k' = k then some v' else get rest k

/-- The keys of a Go map. -/
def keys (m : Obj) : List String := m.map Prod.fst

mutual
/-- Every string stored under the key `$ref` anywhere inside a value. -/
def refs : JSON → List String
  | .str _ => []
  | .num _ => []
  | .strs _ => []
  | .obj kvs => refsObj kvs
/-- Every string stored under the key `$ref` anywhere inside a map. -/
def refsObj : List (String × JSON) → List String
  | [] => []
  | (k, v) :: rest =>
    (match v with
      | .str s => if k = "$ref" then [s] else []
      | w => refs w) ++ refsObj rest
end

/-- The strings stored under `$ref` by one entry of a map. -/
def refsEntry (k : String) (v : JSON) : List String :=
  match v with
  | .str s => if k = "$ref" then [s] else []
  | w => refs w

/-- The map stored under `definitions` in a document, empty when there is none. -/
def definitionsOf (js : Obj) : Obj :=
  match get js "definitions" with
  | some (.obj defs) => defs
  | _ => []

end JSON

namespace strings

/-- Modelled from the spec: `strings.ToLower` of the Go standard library, on
the ASCII letters of type names ("lower-cased element-type name"). -/
def ToLower (s : String) : String := String.mk (s.data.map Char.toLower)

end strings

open rdl JSON

/-- The function `jsTypeRef` (lines 108-130): the JSON Schema type, the format
and, for the remaining base types, the reference object of an element type.
No function of the source calls it. -/
def jsTypeRef (reg : TypeRegistry) (itemTypeName : TypeRef) : String × String × Option Obj :=
  let itype := itemTypeName
  match reg.FindBaseType itemTypeName with
  | .BaseTypeInt8 => ("string", "byte", none)
  | .BaseTypeInt16 | .BaseTypeInt32 | .BaseTypeInt64 =>
    ("integer", strings.ToLower itype, none)
  | .BaseTypeFloat32 => ("number", "float", none)
  | .BaseTypeFloat64 => ("number", "double", none)
  | .BaseTypeString => ("string", "", none)
  | .BaseTypeTimestamp => ("string", "date-time", none)
  | .BaseTypeUUID | .BaseTypeSymbol => ("string", strings.ToLower itype, none)
  | _ => ("", "", some (set [] "$ref" (.str ("#/definitions/" ++ itype))))

/-- The body of the loop over the fields of a struct (lines 148-206): the
property emitted for the field `f`, next to `f` as the loop leaves it. -/
def jsStructField (reg : TypeRegistry) (f : StructFieldDef) :
    Except String (StructFieldDef × Obj) :=
  let ft := reg.FindType f.Type_
  let fbt := reg.BaseType ft
  let prop : Obj := []
  let prop := if f.Comment ≠ "" then set prop "description" (.str f.Comment) else prop
  match fbt with
  | .BaseTypeArray =>
    let prop := set prop "type" (.str "array")
    match ft with
    | none => .error "nil pointer dereference"
    | some ft =>
      let f := match ft with
        | .ArrayTypeDef d => if f.Items = "" then { f with Items := d.Items } else f
        | _ => f
      if f.Items ≠ "" then
        let fitems := f.Items
        let items : Obj := []
        let items :=
          if fitems = "String" then set items "type" (.str (strings.ToLower fitems))
          else if fitems = "Int32" ∨ fitems = "Int64" ∨ fitems = "Int16" then
            set items "type" (.str "integer")
          else set items "$ref" (.str ("#/definitions/" ++ fitems))
        .ok (f, set prop "items" (.obj items))
      else .ok (f, prop)
  | .BaseTypeString =>
    match ft with
    | none => .error "nil pointer dereference"
    | some (.BaseType _) => .ok (f, set prop "type" (.str "string"))
    | some ft => .ok (f, set prop "$ref" (.str ("#/definitions/" ++ (TypeInfo ft).1)))
  | .BaseTypeInt32 | .BaseTypeInt64 | .BaseTypeInt16 =>
    .ok (f, set prop "type" (.str "integer"))
  | .BaseTypeStruct => .ok (f, set prop "$ref" (.str ("#/definitions/" ++ f.Type_)))
  | .BaseTypeMap =>
    let prop := set prop "type" (.str "object")
    if f.Items ≠ "" then
      let fitems := f.Items
      let items : Obj := []
      let items :=
        if f.Items = "String" then set items "type" (.str (strings.ToLower fitems))
        else if f.Items = "Int32" ∨ f.Items = "Int64" ∨ f.Items = "Int16" then
          set (set items "type" (.str "integer")) "format" (.str (strings.ToLower fitems))
        else set items "$ref" (.str ("#/definitions/" ++ fitems))
      .ok (f, set prop "additionalProperties" (.obj items))
    else .ok (f, prop)
  | .BaseTypeEnum => .ok (f, set prop "$ref" (.str ("#/definitions/" ++ f.Type_)))
  | _ => .ok (f, set prop "type" (.str ("_" ++ f.Type_ ++ "_")))

/-- The loop over the fields of a struct (lines 144-208), started with the
names collected in `required` and the properties collected in `props`. It
returns the fields as the loop leaves them, and the two collections. -/
def jsStructFields (reg : TypeRegistry) :
    List StructFieldDef → List String → Obj →
      Except String (List StructFieldDef × List String × Obj)
  | [], required, props => .ok ([], required, props)
  | f :: rest, required, props =>
    let required := if !f.Optional then required ++ [f.Name] else required
    match jsStructField reg f with
    | .error e => .error e
    | .ok (f', prop) =>
      let props := set props f'.Name (.obj prop)
      match jsStructFields reg rest required props with
      | .error e => .error e
      | .ok (rest', required, props) => .ok (f' :: rest', required, props)

/-- The function `jsTypeDef` (lines 132-283): the fragment for the type `t`, or
`none` for the nil map, next to `t` as the call leaves it. -/
def jsTypeDef (reg : TypeRegistry) (t : RdlType) : Except String (Option Obj × RdlType) :=
  let st : Obj := []
  let bt := reg.BaseType (some t)
  match t with
  | .StructTypeDef typedef =>
    let st := if typedef.Comment ≠ "" then set st "description" (.str typedef.Comment) else st
    let walked :=
      if typedef.Fields.length > 0 then jsStructFields reg typedef.Fields [] []
      else .ok (typedef.Fields, [], [])
    match walked with
    | .error e => .error e
    | .ok (fields, required, props) =>
      let st := set st "properties" (.obj props)
      let st := if required.length > 0 then set st "required" (.strs required) else st
      .ok (some st, .StructTypeDef { typedef with Fields := fields })
  | .MapTypeDef typedef =>
    let st := set st "type" (.str "object")
    let st :=
      if typedef.Items ≠ "Any" then
        let items : Obj := []
        let items :=
          match reg.FindBaseType typedef.Items with
          | .BaseTypeString => set items "type" (.str (strings.ToLower typedef.Items))
          | .BaseTypeInt32 | .BaseTypeInt64 | .BaseTypeInt16 =>
            set (set items "type" (.str "integer")) "format"
              (.str (strings.ToLower typedef.Items))
          | _ => set items "$ref" (.str ("#/definitions/" ++ typedef.Items))
        set st "additionalProperties" (.obj items)
      else st
    .ok (some st, t)
  | .ArrayTypeDef typedef =>
    let st := set st "type" (.str bt.String)
    let st :=
      if typedef.Items ≠ "Any" then
        let items : Obj := []
        let items :=
          match reg.FindBaseType typedef.Items with
          | .BaseTypeString => set items "type" (.str (strings.ToLower typedef.Items))
          | .BaseTypeInt32 | .BaseTypeInt64 | .BaseTypeInt16 =>
            set (set items "type" (.str "integer")) "format"
              (.str (strings.ToLower typedef.Items))
          | _ => set items "$ref" (.str ("#/definitions/" ++ typedef.Items))
        set st "items" (.obj items)
      else st
    .ok (some st, t)
  | .EnumTypeDef typedef =>
    let tmp := typedef.Elements.foldl (fun tmp el => tmp ++ [el.Symbol]) []
    .ok (some (set st "enum" (.strs tmp)), t)
  | .UnionTypeDef _ => .ok (some st, t)
  | _ =>
    match bt with
    | .BaseTypeString =>
      match t with
      | .StringTypeDef typedef =>
        let st := set st "type" (.str "string")
        let st := match typedef.MaxSize with
          | some n => set st "maxLength" (.num n)
          | none => st
        let st := match typedef.MinSize with
          | some n => set st "minLength" (.num n)
          | none => st
        let st := if typedef.Pattern ≠ "" then set st "pattern" (.str typedef.Pattern) else st
        .ok (some st, t)
      | _ => .ok (none, t)
    | .BaseTypeInt16 | .BaseTypeInt32 | .BaseTypeInt64 | .BaseTypeFloat32 | .BaseTypeFloat64 =>
      .ok (none, t)
    | .BaseTypeStruct => .ok (some (set st "type" (.str "object")), t)
    | _ => .error "whoops"

/-- The loop over the types of a schema (lines 97-103), started with the
definitions collected in `defs`. It returns the definitions and the types as
the loop leaves them. -/
def jsGenerateTypes (reg : TypeRegistry) :
    List RdlType → Obj → Except String (Obj × List RdlType)
  | [], defs => .ok (defs, [])
  | t :: rest, defs =>
    match jsTypeDef reg t with
    | .error e => .error e
    | .ok (ref, t') =>
      let defs := match ref with
        | some r => set defs (TypeInfo t').1 (.obj r)
        | none => defs
      match jsGenerateTypes reg rest defs with
      | .error e => .error e
      | .ok (defs, rest') => .ok (defs, t' :: rest')

/-- The function `jsGenerate` (lines 90-106). The constructor of the registry,
`rdl.NewTypeRegistry`, belongs to the schema library and is a parameter. The
map `defs` is stored under `definitions` before the loop fills it (line 96);
a Go map is a reference, so the document holds the filled map. The result is
the document next to the schema as the call leaves it; the Go error result is
always nil and is left out. -/
def jsGenerate (NewTypeRegistry : Schema → TypeRegistry) (schema : Schema)
    (_basePath : String) : Except String (Obj × Schema) :=
  let reg := NewTypeRegistry schema
  let js : Obj := []
  let js := set js "$schema" (.str "http://json-schema.org/draft-04/schema#")
  if schema.Types.length > 0 then
    match jsGenerateTypes reg schema.Types [] with
    | .error e => .error e
    | .ok (defs, types) =>
      .ok (set js "definitions" (.obj defs), { schema with Types := types })
  else .ok (js, schema)

namespace rdl

/-- The built-in type named by a reference, if any. -/
def baseTypeByName (ref : TypeRef) : Option BaseType :=
  BaseType.all.find? (fun b => b.String = ref)

/-- Modelled from the spec: `FindType` of the registry of the schema library,
which is not part of the source. Section 4.1: it "returns the declared variant
for a reference, whether user-defined or built-in"; `none` is the nil pointer
returned for a reference that names neither. -/
def findType (types : List RdlType) (ref : TypeRef) : Option RdlType :=
  match types.find? (fun t => (TypeInfo t).1 = ref) with
  | some t => some t
  | none => (baseTypeByName ref).map RdlType.BaseType

/-- Modelled from the spec: `BaseType` of the registry of the schema library,
which is not part of the source. Section 2: "what is your ultimate base type
after following aliases?". The chain of supertype references is followed for
at most `fuel` steps; termination of the chain is a precondition of the
schema (section 4.1), and `Any` is the answer where it is not met. -/
def baseTypeOf (types : List RdlType) : Nat → Option RdlType → BaseType
  | _, none => .BaseTypeAny
  | _, some (.BaseType b) => b
  | 0, some _ => .BaseTypeAny
  | fuel + 1, some t => baseTypeOf types fuel (findType types (TypeInfo t).2.1)

/-- Modelled from the spec: `rdl.NewTypeRegistry`, which is not part of the
source: the registry adapter of section 4.1 over the types of a schema.
`FindBaseType` "follows alias chains to the ultimate base type of any
reference, including the named built-ins". -/
def NewTypeRegistry (schema : Schema) : TypeRegistry where
  FindType := findType schema.Types
  FindBaseType := fun ref =>
    baseTypeOf schema.Types (schema.Types.length + 1) (findType schema.Types ref)
  BaseType := baseTypeOf schema.Types (schema.Types.length + 1)

end rdl

/-! ## Vocabulary of the statements

Definitions that follow the words of the specification; the theorems compare
them with what the generator computes. -/

/-- The `description` entry a comment contributes to a property or a fragment
(section 4.2.1: "Field comment, when non-empty, becomes the description"). -/
def JSON.descriptionOf (comment : String) : Obj :=
  if comment ≠ "" then [("description", .str comment)] else []

/-- The names of the non-optional fields, in declared order (section 4.2.1). -/
def requiredNames (fs : List StructFieldDef) : List String :=
  (fs.filter (fun f => !f.Optional)).map (fun f => f.Name)

/-- The element encoding table of section 4.2.1 for the element reference `e`:
`String` gives a string, the three integer names give an integer, with the
lower-cased name as `format` when `withFormat` is set, and every other
reference gives a `$ref`. -/
def elementEncoding (withFormat : Bool) (e : TypeRef) : Obj :=
  if e = "String" then [("type", .str "string")]
  else if e = "Int16" ∨ e = "Int32" ∨ e = "Int64" then
    if withFormat then [("type", .str "integer"), ("format", .str (strings.ToLower e))]
    else [("type", .str "integer")]
  else [("$ref", .str ("#/definitions/" ++ e))]

/-- The element reference of an array-valued field `f` whose declared type is
`ft`: the items reference of the field when that is non-empty, otherwise the
element type of `ft` when `ft` is an array type, otherwise empty. -/
def arrayElementOf (f : StructFieldDef) (ft : RdlType) : TypeRef :=
  if f.Items ≠ "" then f.Items
  else match ft with
    | .ArrayTypeDef a => a.Items
    | _ => ""

/-- A reference resolves in a schema when it names a built-in type or a
declared type of the schema (section 3, first invariant). -/
def resolves (schema : Schema) (ref : TypeRef) : Bool :=
  (baseTypeByName ref).isSome || schema.Types.any (fun t => (TypeInfo t).1 = ref)

/-- Every reference used by a field or by a collection element of a type
resolves in the schema. An empty items reference of a field is an absent one. -/
def wellReferencedType (schema : Schema) : RdlType → Bool
  | .StructTypeDef d =>
    d.Fields.all (fun f => resolves schema f.Type_ && (f.Items = "" || resolves schema f.Items))
  | .MapTypeDef d => resolves schema d.Items
  | .ArrayTypeDef d => resolves schema d.Items
  | _ => true

/-- Every reference used by a field or by a collection element of the schema
resolves in the schema. -/
def wellReferenced (schema : Schema) : Bool :=
  schema.Types.all (wellReferencedType schema)

/-- The field `f` as `jsTypeDef` leaves it: when its declared type has base type
Array and is itself an array type, an empty items reference is replaced by the
element type of the declared type (line 158); otherwise `f` is unchanged. -/
def fieldAfter (reg : TypeRegistry) (f : StructFieldDef) : StructFieldDef :=
  match reg.BaseType (reg.FindType f.Type_), reg.FindType f.Type_ with
  | .BaseTypeArray, some (.ArrayTypeDef a) =>
    if f.Items = "" then { f with Items := a.Items } else f
  | _, _ => f

/-- The type `t` as `jsTypeDef` leaves it: a struct with every field as
`fieldAfter` gives it, every other type unchanged. -/
def typeAfter (reg : TypeRegistry) : RdlType → RdlType
  | .StructTypeDef d => .StructTypeDef { d with Fields := d.Fields.map (fieldAfter reg) }
  | t => t

/-- The registry built for a schema reads nothing of the items references of
struct fields: the registry of the schema as a run of the generator leaves it
finds the types the registry of the schema found, as the run leaves them, and
gives them the same base types. -/
def RegistryStable (newReg : Schema → TypeRegistry) (schema : Schema) : Prop :=
  (∀ ref, (newReg { schema with Types := schema.Types.map (typeAfter (newReg schema)) }).FindType
      ref = ((newReg schema).FindType ref).map (typeAfter (newReg schema))) ∧
  (∀ o, (newReg { schema with Types := schema.Types.map (typeAfter (newReg schema)) }).BaseType
      (o.map (typeAfter (newReg schema))) = (newReg schema).BaseType o) ∧
  (∀ ref,
    (newReg { schema with Types := schema.Types.map (typeAfter (newReg schema)) }).FindBaseType
      ref = (newReg schema).FindBaseType ref)

/-- A type is plain when it is none of the struct, map, array, enum and union
variants (section 4.2.5 to 4.2.7 and 4.2.9). -/
def isPlain : RdlType → Bool
  | .StructTypeDef _ | .MapTypeDef _ | .ArrayTypeDef _ | .EnumTypeDef _ | .UnionTypeDef _ => false
  | _ => true

/-- The fragment of section 4.2.5 for a string type payload: `"type":"string"`,
then `maxLength` when `MaxSize` is set, `minLength` when `MinSize` is set and
`pattern` when `Pattern` is non-empty. -/
def stringFragment (d : StringTypeDef) : Obj :=
  [("type", .str "string")] ++
    (match d.MaxSize with
      | some n => [("maxLength", .num n)]
      | none => []) ++
    (match d.MinSize with
      | some n => [("minLength", .num n)]
      | none => []) ++
    (if d.Pattern ≠ "" then [("pattern", .str d.Pattern)] else [])

/-- The field is well formed for a registry when the registry finds its
declared type. -/
def fieldResolves (reg : TypeRegistry) (f : StructFieldDef) : Bool :=
  (reg.FindType f.Type_).isSome

/-- A type is well formed for a registry when the registry finds the declared
type of each of its fields. The variant payload is present by construction. -/
def wellFormed (reg : TypeRegistry) : RdlType → Bool
  | .StructTypeDef d => d.Fields.all (fieldResolves reg)
  | _ => true

namespace json

/-- The order of two strings by their characters, first difference first; on
UTF-8 text this is the byte order Go compares strings by. -/
def charsLe : List Char → List Char → Bool
  | [], _ => true
  | _ :: _, [] => false
  | a :: as, b :: bs =>
    if a.toNat < b.toNat then true
    else if b.toNat < a.toNat then false
    else charsLe as bs

/-- The order Go compares two strings by. -/
def keyLe (a b : String) : Prop := charsLe a.data b.data = true

instance : DecidableRel keyLe :=
  fun a b => inferInstanceAs (Decidable (charsLe a.data b.data = true))

/-- The keys of a map in the order `json.MarshalIndent` of the Go standard
library lists them: `encoding/json` writes the keys of a map sorted. -/
def mapKeyOrder (m : Obj) : List String := (keys m).insertionSort keyLe

end json

/-! ## Example schemas -/

namespace Example

/-- The unconstrained string alias `type Name String;`. -/
def nameAlias : RdlType := .AliasTypeDef ⟨"String", "Name", ""⟩

/-- The struct `type Person Struct { Name name; String nick (optional); }`, the
second field commented "short name". -/
def person : StructTypeDef :=
  ⟨"Struct", "Person", "",
    [⟨"name", "Name", false, "", ""⟩, ⟨"nick", "String", true, "", "short name"⟩]⟩

/-- A schema declaring `Name` and `Person`. -/
def people : Schema := ⟨"People", [nameAlias, .StructTypeDef person]⟩

/-- The document generated for `people`. -/
def peopleDocument : Obj :=
  [("$schema", .str "http://json-schema.org/draft-04/schema#"),
   ("definitions", .obj
     [("Person", .obj
       [("properties", .obj
          [("name", .obj [("$ref", .str "#/definitions/Name")]),
           ("nick", .obj [("description", .str "short name"), ("type", .str "string")])]),
        ("required", .strs ["name"])])])]

/-- The numeric alias `type Age Int32;`. -/
def age : RdlType := .AliasTypeDef ⟨"Int32", "Age", ""⟩

/-- A schema declaring `Age` only. -/
def ages : Schema := ⟨"Ages", [age]⟩

/-- The struct `type Bag Struct { Array tags (optional); }`: an array-valued
field without an items reference. -/
def bag : StructTypeDef := ⟨"Struct", "Bag", "", [⟨"tags", "Array", true, "", ""⟩]⟩

/-- A schema declaring `Bag` only. -/
def bags : Schema := ⟨"Bags", [.StructTypeDef bag]⟩

/-- The struct `type Player Struct { String name; }`. -/
def player : StructTypeDef := ⟨"Struct", "Player", "", [⟨"name", "String", false, "", ""⟩]⟩

/-- The struct `type Team Struct { Array<Player> players; }` of section 8 of the spec. -/
def team : StructTypeDef := ⟨"Struct", "Team", "", [⟨"players", "Array", false, "Player", ""⟩]⟩

/-- A schema declaring `Player` and `Team`. -/
def teams : Schema := ⟨"Teams", [.StructTypeDef player, .StructTypeDef team]⟩

/-- The map type `type Counters Map<String,Int64>;`. -/
def counters : RdlType := .MapTypeDef ⟨"Map", "Counters", "", "String", "Int64"⟩

/-- The struct `type Stats Struct { Counters c; }`: a field whose declared type
is a named map type. -/
def stats : StructTypeDef := ⟨"Struct", "Stats", "", [⟨"c", "Counters", false, "", ""⟩]⟩

/-- A schema declaring `Counters` and `Stats`. -/
def statistics : Schema := ⟨"Statistics", [counters, .StructTypeDef stats]⟩

/-- The struct `type Tally Struct { Map<String,Int64> c; }`, the map-valued field
of section 8 of the spec. -/
def tally : StructTypeDef := ⟨"Struct", "Tally", "", [⟨"c", "Map", false, "Int64", ""⟩]⟩

/-- A schema declaring `Tally` only. -/
def tallies : Schema := ⟨"Tallies", [.StructTypeDef tally]⟩

/-- The constrained string type `type Hostname String (pattern="[a-z.]+", maxsize=255);`
of section 8 of the spec. -/
def hostname : RdlType := .StringTypeDef ⟨"String", "Hostname", "", "[a-z.]+", none, some 255⟩

/-- The array type `type Hosts Array<Hostname>;`. -/
def hosts : RdlType := .ArrayTypeDef ⟨"Array", "Hosts", "", "Hostname"⟩

/-- The map type `type HostTable Map<String,Hostname>;`. -/
def hostTable : RdlType := .MapTypeDef ⟨"Map", "HostTable", "", "String", "Hostname"⟩

/-- The struct `type Cluster Struct { Array<Hostname> members; Map<String,Hostname> byRole; }`:
the same element type reached through fields. -/
def cluster : StructTypeDef :=
  ⟨"Struct", "Cluster", "",
    [⟨"members", "Array", false, "Hostname", ""⟩, ⟨"byRole", "Map", false, "Hostname", ""⟩]⟩

/-- A schema declaring `Hostname`, `Hosts`, `HostTable` and `Cluster`. -/
def network : Schema := ⟨"Network", [hostname, hosts, hostTable, .StructTypeDef cluster]⟩

/-- The array type `type Names Array<String>;`. -/
def names : RdlType := .ArrayTypeDef ⟨"Array", "Names", "", "String"⟩

/-- The struct `type Roster Struct { Array<String> names; }`. -/
def roster : StructTypeDef := ⟨"Struct", "Roster", "", [⟨"names", "Array", false, "String", ""⟩]⟩

/-- A schema declaring `Names` and `Roster`. -/
def rosters : Schema := ⟨"Rosters", [names, .StructTypeDef roster]⟩

/-- The enum `type Color Enum { RED, GREEN, BLUE }` of section 8 of the spec. -/
def color : EnumTypeDef :=
  ⟨"Enum", "Color", "", [⟨"RED", ""⟩, ⟨"GREEN", ""⟩, ⟨"BLUE", ""⟩]⟩

/-- A string type payload that sets none of `MaxSize`, `MinSize` and `Pattern`,
such as a string type constrained by a list of values only. -/
def label : RdlType := .StringTypeDef ⟨"String", "Label", "", "", none, none⟩

/-- A schema declaring `Label` and `Hostname`. -/
def labels : Schema := ⟨"Labels", [label, hostname]⟩

/-- The alias `type Tiny Int8;`. -/
def tiny : RdlType := .AliasTypeDef ⟨"Int8", "Tiny", ""⟩

/-- The alias `type Ratio Float64;`. -/
def ratio : RdlType := .AliasTypeDef ⟨"Float64", "Ratio", ""⟩

/-- A schema declaring `Tiny` only. -/
def tinies : Schema := ⟨"Tinies", [tiny]⟩

/-- A schema declaring `Age` and `Ratio`. -/
def numbers : Schema := ⟨"Numbers", [age, ratio]⟩

/-- The union `type Shape Union<Circle,Square>;`. -/
def shape : UnionTypeDef := ⟨"Union", "Shape", "", ["Circle", "Square"]⟩

/-- A schema declaring `Shape` only. -/
def shapes : Schema := ⟨"Shapes", [.UnionTypeDef shape]⟩

/-- The struct `type Directory Struct { Names entries; }`: a field whose declared
type is the array type `Names` and which has no items reference of its own. -/
def directory : StructTypeDef := ⟨"Struct", "Directory", "", [⟨"entries", "Names", false, "", ""⟩]⟩

/-- The struct `Directory` with the items reference of `entries` filled in. -/
def directoryAfter : StructTypeDef :=
  ⟨"Struct", "Directory", "", [⟨"entries", "Names", false, "String", ""⟩]⟩

/-- A schema declaring `Names` and `Directory`. -/
def directories : Schema := ⟨"Directories", [names, .StructTypeDef directory]⟩

/-- The struct `type Member Struct { String name; Int32 age; }`: field names
declared in descending order. -/
def member : StructTypeDef :=
  ⟨"Struct", "Member", "", [⟨"name", "String", false, "", ""⟩, ⟨"age", "Int32", false, "", ""⟩]⟩

/-- A schema declaring `Member` only. -/
def members : Schema := ⟨"Members", [.StructTypeDef member]⟩

/-- The struct `type Pixel Struct { Int8 depth; }`, the field commented "bits". -/
def pixel : StructTypeDef := ⟨"Struct", "Pixel", "", [⟨"depth", "Int8", false, "", "bits"⟩]⟩

/-- A schema declaring `Pixel` only. -/
def pixels : Schema := ⟨"Pixels", [.StructTypeDef pixel]⟩

/-- The schema `directories` with the items reference of `entries` filled in. -/
def directoriesAfter : Schema := ⟨"Directories", [names, .StructTypeDef directoryAfter]⟩

/-- The fragment generated for `Directory`. -/
def directoryFragment : Obj :=
  [("properties", .obj
     [("entries", .obj [("type", .str "array"), ("items", .obj [("type", .str "string")])])]),
   ("required", .strs ["entries"])]

/-- The document generated for `directories`. -/
def directoriesDocument : Obj :=
  [("$schema", .str "http://json-schema.org/draft-04/schema#"),
   ("definitions", .obj
     [("Names", .obj [("type", .str "Array"), ("items", .obj [("type", .str "string")])]),
      ("Directory", .obj directoryFragment)])]

end Example

/-! ## Lemmas -/

/-! ## Go maps as association lists -/

namespace JSON

theorem get_set_self (m : Obj) (k : String) (v : JSON) : get (set m k v) k = some v := by
  induction m with
  | nil => simp [set, get]
  | cons kv rest ih =>
    obtain ⟨k', v'⟩ := kv
    by_cases hk : k' = k
    · simp [set, get, hk]
    · simp [set, get, hk, ih]

theorem get_set_ne (m : Obj) (k k' : String) (v : JSON) (hne : k' ≠ k) :
    get (set m k v) k' = get m k' := by
  induction m with
  | nil => simp [set, get, Ne.symm hne]
  | cons kv rest ih =>
    obtain ⟨k₁, v₁⟩ := kv
    by_cases hk : k₁ = k
    · subst hk
      simp [set, get, Ne.symm hne]
    · by_cases hk' : k₁ = k'
      · subst hk'
        simp [set, get, hne]
      · simp [set, get, hk, hk', ih]

theorem mem_keys_iff_get (m : Obj) (k : String) : k ∈ keys m ↔ ∃ v, get m k = some v := by
  induction m with
  | nil => simp [keys, get]
  | cons kv rest ih =>
    obtain ⟨k₁, v₁⟩ := kv
    by_cases hk : k₁ = k
    · simp [keys, get, hk]
    · have ih' : k ∈ List.map Prod.fst rest ↔ ∃ v, get rest k = some v := ih
      simp only [keys, List.map_cons, List.mem_cons, get, hk, if_false]
      rw [ih']
      constructor
      · rintro (h | h)
        · exact absurd h.symm hk
        · exact h
      · exact fun h => Or.inr h

theorem get_eq_none_iff (m : Obj) (k : String) : get m k = none ↔ k ∉ keys m := by
  rw [mem_keys_iff_get]
  cases h : get m k <;> simp

theorem refsObj_cons (k : String) (v : JSON) (rest : Obj) :
    refsObj ((k, v) :: rest) = refsEntry k v ++ refsObj rest := by
  cases v <;> simp [refsObj, refsEntry]

theorem mem_refsObj_set (m : Obj) (k : String) (v : JSON) (s : String)
    (hs : s ∈ refsObj (set m k v)) : s ∈ refsObj m ∨ s ∈ refsEntry k v := by
  induction m with
  | nil =>
    rw [show set [] k v = [(k, v)] from rfl, refsObj_cons] at hs
    simp only [refsObj, List.append_nil] at hs
    exact Or.inr hs
  | cons kv rest ih =>
    obtain ⟨k₁, v₁⟩ := kv
    by_cases hk : k₁ = k
    · simp only [set, hk, if_true, refsObj_cons, List.mem_append] at hs ⊢
      rcases hs with h | h
      · exact Or.inr h
      · exact Or.inl (Or.inr h)
    · simp only [set, hk, if_false, refsObj_cons, List.mem_append] at hs ⊢
      rcases hs with h | h
      · exact Or.inl (Or.inl h)
      · rcases ih h with h' | h'
        · exact Or.inl (Or.inr h')
        · exact Or.inr h'

end JSON

namespace JSON

theorem set_nil (k : String) (v : JSON) : set [] k v = [(k, v)] := rfl

theorem set_of_not_mem (m : Obj) (k : String) (v : JSON) (hk : k ∉ keys m) :
    set m k v = m ++ [(k, v)] := by
  induction m with
  | nil => rfl
  | cons kv rest ih =>
    obtain ⟨k₁, v₁⟩ := kv
    have h₁ : k₁ ≠ k := fun h => hk (by simp [keys, h])
    have h₂ : k ∉ keys rest := fun h => hk (by
      have : k ∈ List.map Prod.fst rest := h
      simp [keys, this])
    simp [set, h₁, ih h₂]

theorem set_descriptionOf (c k : String) (v : JSON) (hk : k ≠ "description") :
    set (descriptionOf c) k v = descriptionOf c ++ [(k, v)] := by
  apply set_of_not_mem
  unfold descriptionOf
  split <;> simp [keys, hk]

theorem refsObj_descriptionOf (c : String) : refsObj (descriptionOf c) = [] := by
  unfold descriptionOf
  split <;> simp [refsObj]

end JSON

/-! ## The loop over the fields of a struct -/

theorem jsStructField_frame (reg : TypeRegistry) (f f' : StructFieldDef) (p : Obj)
    (h : jsStructField reg f = .ok (f', p)) :
    f'.Name = f.Name ∧ f'.Type_ = f.Type_ ∧ f'.Optional = f.Optional ∧
      f'.Comment = f.Comment := by
  unfold jsStructField at h
  simp only at h
  split at h
  · split at h
    · cases h
    · split at h <;> split at h <;> (try split at h) <;>
        simp only [Except.ok.injEq, Prod.mk.injEq] at h <;>
        (obtain ⟨rfl, -⟩ := h) <;> simp
  · split at h
    · cases h
    all_goals
      simp only [Except.ok.injEq, Prod.mk.injEq] at h
      obtain ⟨rfl, -⟩ := h
      simp
  all_goals
    first
      | (simp only [Except.ok.injEq, Prod.mk.injEq] at h
         obtain ⟨rfl, -⟩ := h
         simp)
      | (split at h <;>
          simp only [Except.ok.injEq, Prod.mk.injEq] at h <;>
          (obtain ⟨rfl, -⟩ := h) <;> simp)

theorem jsStructField_ok (reg : TypeRegistry) (f : StructFieldDef)
    (hres : (reg.FindType f.Type_).isSome = true) : ∃ r, jsStructField reg f = .ok r := by
  obtain ⟨ft, hft⟩ := Option.isSome_iff_exists.mp hres
  unfold jsStructField
  simp only [hft]
  repeat' split
  all_goals first | exact ⟨_, rfl⟩ | simp_all

theorem jsStructFields_cons_ok (reg : TypeRegistry) (f : StructFieldDef)
    (rest fs' : List StructFieldDef) (req req' : List String) (props props' : Obj)
    (h : jsStructFields reg (f :: rest) req props = .ok (fs', req', props')) :
    ∃ f' p rest', jsStructField reg f = .ok (f', p) ∧ fs' = f' :: rest' ∧
      jsStructFields reg rest (if !f.Optional then req ++ [f.Name] else req)
        (set props f'.Name (.obj p)) = .ok (rest', req', props') := by
  simp only [jsStructFields] at h
  split at h
  · cases h
  · rename_i f' p hf
    split at h
    · cases h
    · rename_i rest' r₂ p₂ hrest
      simp only [Except.ok.injEq, Prod.mk.injEq] at h
      obtain ⟨rfl, rfl, rfl⟩ := h
      exact ⟨f', p, rest', by assumption, rfl, by assumption⟩

theorem jsStructFields_ok (reg : TypeRegistry) (fs : List StructFieldDef)
    (hok : ∀ f ∈ fs, ∃ r, jsStructField reg f = .ok r) (req : List String) (props : Obj) :
    ∃ r, jsStructFields reg fs req props = .ok r := by
  induction fs generalizing req props with
  | nil => exact ⟨_, rfl⟩
  | cons f rest ih =>
    obtain ⟨⟨f', p⟩, hf⟩ := hok f (List.mem_cons_self _ _)
    obtain ⟨⟨rest', req', props'⟩, hrest⟩ :=
      ih (fun g hg => hok g (List.mem_cons_of_mem _ hg))
        (if !f.Optional then req ++ [f.Name] else req) (set props f'.Name (.obj p))
    refine ⟨(f' :: rest', req', props'), ?_⟩
    simp only [jsStructFields, hf, hrest]

theorem jsStructFields_required (reg : TypeRegistry) (fs fs' : List StructFieldDef)
    (req req' : List String) (props props' : Obj)
    (h : jsStructFields reg fs req props = .ok (fs', req', props')) :
    req' = req ++ requiredNames fs := by
  induction fs generalizing fs' req props with
  | nil =>
    simp only [jsStructFields, Except.ok.injEq, Prod.mk.injEq] at h
    simp [requiredNames, h.2.1]
  | cons f rest ih =>
    obtain ⟨f', p, rest', -, -, hrest⟩ := jsStructFields_cons_ok reg f rest fs' req req' props props' h
    rw [ih _ _ _ hrest]
    cases hopt : f.Optional <;> simp [requiredNames, hopt]

theorem jsStructFields_get_other (reg : TypeRegistry) (fs fs' : List StructFieldDef)
    (req req' : List String) (props props' : Obj)
    (h : jsStructFields reg fs req props = .ok (fs', req', props'))
    (k : String) (hk : k ∉ fs.map (fun f => f.Name)) : get props' k = get props k := by
  induction fs generalizing fs' req props with
  | nil =>
    simp only [jsStructFields, Except.ok.injEq, Prod.mk.injEq] at h
    rw [h.2.2]
  | cons f rest ih =>
    obtain ⟨f', p, rest', hf, -, hrest⟩ := jsStructFields_cons_ok reg f rest fs' req req' props props' h
    have hname := (jsStructField_frame reg f f' p hf).1
    simp only [List.map_cons, List.mem_cons, not_or] at hk
    rw [ih _ _ _ hrest hk.2, get_set_ne]
    rw [hname]
    exact hk.1

theorem jsStructFields_get (reg : TypeRegistry) (fs fs' : List StructFieldDef)
    (req req' : List String) (props props' : Obj)
    (h : jsStructFields reg fs req props = .ok (fs', req', props'))
    (hnd : (fs.map (fun f => f.Name)).Nodup) (f : StructFieldDef) (hf : f ∈ fs) :
    ∃ f' p, jsStructField reg f = .ok (f', p) ∧ get props' f.Name = some (.obj p) := by
  induction fs generalizing fs' req props with
  | nil => cases hf
  | cons g rest ih =>
    obtain ⟨g', p, rest', hg, -, hrest⟩ := jsStructFields_cons_ok reg g rest fs' req req' props props' h
    have hname := (jsStructField_frame reg g g' p hg).1
    simp only [List.map_cons, List.nodup_cons] at hnd
    rcases List.mem_cons.mp hf with rfl | hmem
    · refine ⟨g', p, hg, ?_⟩
      rw [jsStructFields_get_other reg rest rest' _ req' _ props' hrest f.Name hnd.1, hname,
        get_set_self]
    · exact ih _ _ _ hrest hnd.2 hmem

theorem jsStructFields_refs (reg : TypeRegistry) (fs fs' : List StructFieldDef)
    (req req' : List String) (props props' : Obj)
    (h : jsStructFields reg fs req props = .ok (fs', req', props'))
    (s : String) (hs : s ∈ refsObj props') :
    s ∈ refsObj props ∨ ∃ f ∈ fs, ∃ f' p, jsStructField reg f = .ok (f', p) ∧ s ∈ refsObj p := by
  induction fs generalizing fs' req props with
  | nil =>
    simp only [jsStructFields, Except.ok.injEq, Prod.mk.injEq] at h
    rw [← h.2.2] at hs
    exact Or.inl hs
  | cons g rest ih =>
    obtain ⟨g', p, rest', hg, -, hrest⟩ := jsStructFields_cons_ok reg g rest fs' req req' props props' h
    rcases ih _ _ _ hrest with h₁ | ⟨f, hf, f', q, hq, hsq⟩
    · rcases mem_refsObj_set _ _ _ _ h₁ with h₂ | h₂
      · exact Or.inl h₂
      · exact Or.inr ⟨g, List.mem_cons_self _ _, g', p, hg, by simpa [refsEntry, refs] using h₂⟩
    · exact Or.inr ⟨f, List.mem_cons_of_mem _ hf, f', q, hq, hsq⟩

/-! ## The struct variant -/

theorem jsTypeDef_struct (reg : TypeRegistry) (d : StructTypeDef) :
    jsTypeDef reg (.StructTypeDef d) =
      match jsStructFields reg d.Fields [] [] with
      | .error e => .error e
      | .ok (fields, required, props) =>
        .ok (some
          (if required.length > 0 then
            set (set (descriptionOf d.Comment) "properties" (.obj props)) "required"
              (.strs required)
          else set (descriptionOf d.Comment) "properties" (.obj props)),
          .StructTypeDef { d with Fields := fields }) := by
  obtain ⟨ty, name, comment, fields⟩ := d
  cases fields with
  | nil => simp [jsTypeDef, jsStructFields, descriptionOf, JSON.set_nil]
  | cons f rest => simp [jsTypeDef, descriptionOf, JSON.set_nil]

theorem jsTypeDef_struct_ok (reg : TypeRegistry) (d : StructTypeDef)
    (hres : ∀ f ∈ d.Fields, (reg.FindType f.Type_).isSome = true) :
    ∃ fields props, jsStructFields reg d.Fields [] [] =
        .ok (fields, requiredNames d.Fields, props) ∧
      jsTypeDef reg (.StructTypeDef d) =
        .ok (some
          (if (requiredNames d.Fields).length > 0 then
            set (set (descriptionOf d.Comment) "properties" (.obj props)) "required"
              (.strs (requiredNames d.Fields))
          else set (descriptionOf d.Comment) "properties" (.obj props)),
          .StructTypeDef { d with Fields := fields }) := by
  obtain ⟨⟨fields, req, props⟩, hloop⟩ :=
    jsStructFields_ok reg d.Fields (fun f hf => jsStructField_ok reg f (hres f hf)) [] []
  have hreq : req = requiredNames d.Fields := by
    simpa using jsStructFields_required reg d.Fields fields [] req [] props hloop
  subst hreq
  refine ⟨fields, props, hloop, ?_⟩
  rw [jsTypeDef_struct, hloop]

theorem get_struct_fragment (c : String) (props : Obj) (req : List String) :
    get (if req.length > 0 then
          set (set (descriptionOf c) "properties" (.obj props)) "required" (.strs req)
        else set (descriptionOf c) "properties" (.obj props)) "properties"
      = some (.obj props) := by
  split
  · rw [get_set_ne _ _ _ _ (by decide), get_set_self]
  · rw [get_set_self]

theorem jsTypeDef_struct_property (reg : TypeRegistry) (d : StructTypeDef)
    (hres : ∀ f ∈ d.Fields, (reg.FindType f.Type_).isSome = true)
    (hnd : (d.Fields.map (fun f => f.Name)).Nodup) (f : StructFieldDef) (hf : f ∈ d.Fields) :
    ∃ st t' props f' p, jsTypeDef reg (.StructTypeDef d) = .ok (some st, t') ∧
      get st "properties" = some (.obj props) ∧ jsStructField reg f = .ok (f', p) ∧
      get props f.Name = some (.obj p) := by
  obtain ⟨fields, props, hloop, hdef⟩ := jsTypeDef_struct_ok reg d hres
  obtain ⟨f', p, hfp, hget⟩ := jsStructFields_get reg d.Fields fields [] _ [] props hloop hnd f hf
  exact ⟨_, _, props, f', p, hdef, get_struct_fragment _ _ _, hfp, hget⟩

/-! ## The property emitted for a field -/

theorem ToLower_String : strings.ToLower "String" = "string" := by decide

theorem jsStructField_string (reg : TypeRegistry) (f : StructFieldDef) (ft : RdlType)
    (hft : reg.FindType f.Type_ = some ft)
    (hb : reg.BaseType (some ft) = .BaseTypeString) :
    jsStructField reg f = .ok (f, descriptionOf f.Comment ++
      [match ft with
        | .BaseType _ => ("type", .str "string")
        | _ => ("$ref", .str ("#/definitions/" ++ (TypeInfo ft).1))]) := by
  unfold jsStructField
  simp only [hft, hb]
  have hd : (if f.Comment ≠ "" then JSON.set [] "description" (.str f.Comment) else [])
      = descriptionOf f.Comment := rfl
  rw [hd]
  cases ft <;> simp only [] <;> rw [set_descriptionOf _ _ _ (by decide)]

theorem set_descriptionOf_two (c k₁ k₂ : String) (v₁ v₂ : JSON) (h₁ : k₁ ≠ "description")
    (h₂ : k₂ ≠ "description") (h₁₂ : k₂ ≠ k₁) :
    JSON.set (JSON.set (descriptionOf c) k₁ v₁) k₂ v₂ =
      descriptionOf c ++ [(k₁, v₁)] ++ [(k₂, v₂)] := by
  rw [set_descriptionOf _ _ _ h₁]
  apply set_of_not_mem
  unfold descriptionOf
  split <;> simp [keys, h₂, h₁₂]

theorem items_of_field (e : TypeRef) :
    (if e = "String" then JSON.set [] "type" (.str (strings.ToLower e))
      else if e = "Int32" ∨ e = "Int64" ∨ e = "Int16" then JSON.set [] "type" (.str "integer")
      else JSON.set [] "$ref" (.str ("#/definitions/" ++ e))) = elementEncoding false e := by
  unfold elementEncoding
  by_cases h₁ : e = "String"
  · subst h₁
    simp [JSON.set_nil, ToLower_String]
  · by_cases h₂ : e = "Int32" ∨ e = "Int64" ∨ e = "Int16"
    · have h₃ : e = "Int16" ∨ e = "Int32" ∨ e = "Int64" := by tauto
      simp [h₁, h₂, h₃, JSON.set_nil]
    · have h₃ : ¬ (e = "Int16" ∨ e = "Int32" ∨ e = "Int64") := by tauto
      simp [h₁, h₂, h₃, JSON.set_nil]

theorem items_of_map_field (e : TypeRef) :
    (if e = "String" then JSON.set [] "type" (.str (strings.ToLower e))
      else if e = "Int32" ∨ e = "Int64" ∨ e = "Int16" then
        JSON.set (JSON.set [] "type" (.str "integer")) "format" (.str (strings.ToLower e))
      else JSON.set [] "$ref" (.str ("#/definitions/" ++ e))) = elementEncoding true e := by
  unfold elementEncoding
  by_cases h₁ : e = "String"
  · subst h₁
    simp [JSON.set_nil, ToLower_String]
  · by_cases h₂ : e = "Int32" ∨ e = "Int64" ∨ e = "Int16"
    · have h₃ : e = "Int16" ∨ e = "Int32" ∨ e = "Int64" := by tauto
      simp [h₁, h₂, h₃, JSON.set_nil, JSON.set]
    · have h₃ : ¬ (e = "Int16" ∨ e = "Int32" ∨ e = "Int64") := by tauto
      simp [h₁, h₂, h₃, JSON.set_nil]

theorem jsStructField_array (reg : TypeRegistry) (f : StructFieldDef) (ft : RdlType)
    (hft : reg.FindType f.Type_ = some ft)
    (hb : reg.BaseType (some ft) = .BaseTypeArray) :
    jsStructField reg f = .ok ({ f with Items := arrayElementOf f ft },
      descriptionOf f.Comment ++ [("type", .str "array")] ++
        (if arrayElementOf f ft = "" then []
         else [("items", .obj (elementEncoding false (arrayElementOf f ft)))])) := by
  have hd : (if f.Comment ≠ "" then JSON.set [] "description" (.str f.Comment) else [])
      = descriptionOf f.Comment := rfl
  have hshape : ∀ g : StructFieldDef,
      (if g.Items ≠ "" then
        (Except.ok (g, JSON.set (JSON.set (descriptionOf f.Comment) "type" (.str "array")) "items"
          (.obj (if g.Items = "String" then JSON.set [] "type" (.str (strings.ToLower g.Items))
            else if g.Items = "Int32" ∨ g.Items = "Int64" ∨ g.Items = "Int16" then
              JSON.set [] "type" (.str "integer")
            else JSON.set [] "$ref" (.str ("#/definitions/" ++ g.Items))))) :
          Except String (StructFieldDef × Obj))
      else .ok (g, JSON.set (descriptionOf f.Comment) "type" (.str "array")))
      = .ok (g, descriptionOf f.Comment ++ [("type", .str "array")] ++
          (if g.Items = "" then [] else [("items", .obj (elementEncoding false g.Items))])) := by
    intro g
    by_cases hg : g.Items = ""
    · simp [hg, set_descriptionOf]
    · simp only [ne_eq, hg, not_false_eq_true, if_true, if_false, items_of_field]
      rw [set_descriptionOf_two _ _ _ _ _ (by decide) (by decide) (by decide)]
  unfold jsStructField
  simp only [hft, hb]
  rw [hd]
  have hmut : (match ft with
      | .ArrayTypeDef d => if f.Items = "" then { f with Items := d.Items } else f
      | _ => f) = { f with Items := arrayElementOf f ft } := by
    unfold arrayElementOf
    cases ft <;> by_cases hi : f.Items = "" <;> simp [hi]
    all_goals (rw [← hi])
  rw [hmut]
  exact hshape _

theorem jsStructField_map (reg : TypeRegistry) (f : StructFieldDef)
    (hb : reg.BaseType (reg.FindType f.Type_) = .BaseTypeMap) :
    jsStructField reg f = .ok (f,
      descriptionOf f.Comment ++ [("type", .str "object")] ++
        (if f.Items = "" then []
         else [("additionalProperties", .obj (elementEncoding true f.Items))])) := by
  have hd : (if f.Comment ≠ "" then JSON.set [] "description" (.str f.Comment) else [])
      = descriptionOf f.Comment := rfl
  unfold jsStructField
  simp only [hb]
  rw [hd]
  by_cases hi : f.Items = ""
  · simp [hi, set_descriptionOf]
  · simp only [ne_eq, hi, not_false_eq_true, if_true, if_false, items_of_map_field]
    rw [set_descriptionOf_two _ _ _ _ _ (by decide) (by decide) (by decide)]

/-! ## The loop over the types of a schema -/

theorem jsTypeDef_TypeInfo (reg : TypeRegistry) (t t' : RdlType) (r : Option Obj)
    (h : jsTypeDef reg t = .ok (r, t')) : TypeInfo t' = TypeInfo t := by
  cases t with
  | StructTypeDef d =>
    rw [jsTypeDef_struct] at h
    split at h
    · cases h
    · simp only [Except.ok.injEq, Prod.mk.injEq] at h
      rw [← h.2]
      rfl
  | MapTypeDef d =>
    simp only [jsTypeDef, Except.ok.injEq, Prod.mk.injEq] at h
    rw [← h.2]
  | ArrayTypeDef d =>
    simp only [jsTypeDef, Except.ok.injEq, Prod.mk.injEq] at h
    rw [← h.2]
  | EnumTypeDef d =>
    simp only [jsTypeDef, Except.ok.injEq, Prod.mk.injEq] at h
    rw [← h.2]
  | UnionTypeDef d =>
    simp only [jsTypeDef, Except.ok.injEq, Prod.mk.injEq] at h
    rw [← h.2]
  | BaseType b =>
    simp only [jsTypeDef] at h
    split at h <;> cases h <;> rfl
  | StringTypeDef d =>
    simp only [jsTypeDef] at h
    split at h <;> cases h <;> rfl
  | AliasTypeDef d =>
    simp only [jsTypeDef] at h
    split at h <;> cases h <;> rfl

theorem jsGenerateTypes_cons_ok (reg : TypeRegistry) (t : RdlType) (rest ts' : List RdlType)
    (defs defs' : Obj) (h : jsGenerateTypes reg (t :: rest) defs = .ok (defs', ts')) :
    ∃ ref t' rest', jsTypeDef reg t = .ok (ref, t') ∧ ts' = t' :: rest' ∧
      jsGenerateTypes reg rest
        (match ref with
          | some r => JSON.set defs (TypeInfo t).1 (.obj r)
          | none => defs) = .ok (defs', rest') := by
  simp only [jsGenerateTypes] at h
  split at h
  · cases h
  · rename_i ref t' ht
    rw [jsTypeDef_TypeInfo reg t t' ref ht] at h
    split at h
    · cases h
    · rename_i d₂ rest' hrest
      simp only [Except.ok.injEq, Prod.mk.injEq] at h
      obtain ⟨rfl, rfl⟩ := h
      exact ⟨ref, t', rest', ht, rfl, hrest⟩

theorem jsGenerateTypes_ok (reg : TypeRegistry) (ts : List RdlType)
    (hok : ∀ t ∈ ts, ∃ r, jsTypeDef reg t = .ok r) (defs : Obj) :
    ∃ r, jsGenerateTypes reg ts defs = .ok r := by
  induction ts generalizing defs with
  | nil => exact ⟨_, rfl⟩
  | cons t rest ih =>
    obtain ⟨⟨ref, t'⟩, ht⟩ := hok t (List.mem_cons_self _ _)
    have ih' := ih (fun u hu => hok u (List.mem_cons_of_mem _ hu))
    cases ref with
    | none =>
      obtain ⟨⟨defs', rest'⟩, hrest⟩ := ih' defs
      refine ⟨(defs', t' :: rest'), ?_⟩
      simp only [jsGenerateTypes, ht, hrest]
    | some r =>
      obtain ⟨⟨defs', rest'⟩, hrest⟩ := ih' (JSON.set defs (TypeInfo t').1 (.obj r))
      refine ⟨(defs', t' :: rest'), ?_⟩
      simp only [jsGenerateTypes, ht, hrest]

theorem jsGenerateTypes_refs (reg : TypeRegistry) (ts ts' : List RdlType) (defs defs' : Obj)
    (h : jsGenerateTypes reg ts defs = .ok (defs', ts')) (s : String)
    (hs : s ∈ refsObj defs') :
    s ∈ refsObj defs ∨
      ∃ t ∈ ts, ∃ r t', jsTypeDef reg t = .ok (some r, t') ∧ s ∈ refsObj r := by
  induction ts generalizing ts' defs with
  | nil =>
    simp only [jsGenerateTypes, Except.ok.injEq, Prod.mk.injEq] at h
    rw [← h.1] at hs
    exact Or.inl hs
  | cons t rest ih =>
    obtain ⟨ref, t', rest', ht, -, hrest⟩ := jsGenerateTypes_cons_ok reg t rest ts' defs defs' h
    rcases ih _ _ hrest with h₁ | ⟨u, hu, r, u', hur, hsr⟩
    · cases ref with
      | none => exact Or.inl h₁
      | some r =>
        rcases mem_refsObj_set _ _ _ _ h₁ with h₂ | h₂
        · exact Or.inl h₂
        · exact Or.inr ⟨t, List.mem_cons_self _ _, r, t', ht, by simpa [refsEntry, refs] using h₂⟩
    · exact Or.inr ⟨u, List.mem_cons_of_mem _ hu, r, u', hur, hsr⟩

theorem jsGenerateTypes_get (reg : TypeRegistry) (ts ts' : List RdlType) (defs defs' : Obj)
    (h : jsGenerateTypes reg ts defs = .ok (defs', ts'))
    (hnd : (ts.map (fun t => (TypeInfo t).1)).Nodup) (n : String) (v : JSON) :
    get defs' n = some v ↔
      (∃ t ∈ ts, (TypeInfo t).1 = n ∧
        ∃ r t', jsTypeDef reg t = .ok (some r, t') ∧ v = .obj r) ∨
      ((∀ t ∈ ts, (TypeInfo t).1 = n → ∃ t', jsTypeDef reg t = .ok (none, t')) ∧
        get defs n = some v) := by
  induction ts generalizing ts' defs with
  | nil =>
    simp only [jsGenerateTypes, Except.ok.injEq, Prod.mk.injEq] at h
    rw [← h.1]
    simp
  | cons t rest ih =>
    obtain ⟨ref, t', rest', ht, -, hrest⟩ := jsGenerateTypes_cons_ok reg t rest ts' defs defs' h
    simp only [List.map_cons, List.nodup_cons] at hnd
    have hfresh : ∀ u ∈ rest, (TypeInfo u).1 ≠ (TypeInfo t).1 := by
      intro u hu heq
      exact hnd.1 (List.mem_map.mpr ⟨u, hu, heq⟩)
    rw [ih _ _ hrest hnd.2]
    constructor
    · rintro (⟨u, hu, hn, r, u', hur, hv⟩ | ⟨hall, hget⟩)
      · exact Or.inl ⟨u, List.mem_cons_of_mem _ hu, hn, r, u', hur, hv⟩
      · cases ref with
        | none =>
          refine Or.inr ⟨?_, hget⟩
          intro u hu hn
          rcases List.mem_cons.mp hu with rfl | hu'
          · exact ⟨t', ht⟩
          · exact hall u hu' hn
        | some r =>
          by_cases hn : (TypeInfo t).1 = n
          · subst hn
            simp only [get_set_self, Option.some.injEq] at hget
            exact Or.inl ⟨t, List.mem_cons_self _ _, rfl, r, t', ht, hget.symm⟩
          · simp only [] at hget
            rw [get_set_ne _ _ _ _ (Ne.symm hn)] at hget
            refine Or.inr ⟨?_, hget⟩
            intro u hu hun
            rcases List.mem_cons.mp hu with rfl | hu'
            · exact absurd hun hn
            · exact hall u hu' hun
    · rintro (⟨u, hu, hn, r, u', hur, hv⟩ | ⟨hall, hget⟩)
      · rcases List.mem_cons.mp hu with rfl | hu'
        · rw [ht] at hur
          simp only [Except.ok.injEq, Prod.mk.injEq] at hur
          obtain ⟨rfl, rfl⟩ := hur
          refine Or.inr ⟨?_, ?_⟩
          · intro w hw hwn
            exact absurd (hwn.trans hn.symm) (hfresh w hw)
          · subst hn
            simp only [get_set_self, hv]
        · exact Or.inl ⟨u, hu', hn, r, u', hur, hv⟩
      · refine Or.inr ⟨fun u hu hn => hall u (List.mem_cons_of_mem _ hu) hn, ?_⟩
        cases ref with
        | none => exact hget
        | some r =>
          have hn : (TypeInfo t).1 ≠ n := by
            intro hn
            obtain ⟨t'', ht''⟩ := hall t (List.mem_cons_self _ _) hn
            rw [ht] at ht''
            simp at ht''
          simp only []
          rw [get_set_ne _ _ _ _ (Ne.symm hn)]
          exact hget

/-! ## References of a fragment -/

theorem refsObj_append (a b : Obj) : refsObj (a ++ b) = refsObj a ++ refsObj b := by
  induction a with
  | nil => simp [refsObj]
  | cons kv rest ih =>
    obtain ⟨k, v⟩ := kv
    rw [List.cons_append, refsObj_cons, refsObj_cons, ih, List.append_assoc]

theorem refsObj_single_str (k s : String) :
    refsObj [(k, .str s)] = if k = "$ref" then [s] else [] := by
  simp [refsObj]

theorem refsObj_single_obj (k : String) (m : Obj) : refsObj [(k, .obj m)] = refsObj m := by
  simp [refsObj, refs]

theorem mem_refsObj_elementEncoding (w : Bool) (e : TypeRef) (s : String)
    (hs : s ∈ refsObj (elementEncoding w e)) : s = "#/definitions/" ++ e := by
  unfold elementEncoding at hs
  split at hs
  · simp [refsObj] at hs
  · split at hs
    · split at hs <;> simp [refsObj] at hs
    · simpa [refsObj] using hs

theorem refsObj_initial_prop (c : String) :
    refsObj (if c ≠ "" then JSON.set [] "description" (.str c) else []) = [] :=
  refsObj_descriptionOf c

theorem jsStructField_refs (reg : TypeRegistry) (f f' : StructFieldDef) (p : Obj)
    (h : jsStructField reg f = .ok (f', p)) (s : String) (hs : s ∈ refsObj p) :
    s = "#/definitions/" ++ f.Type_ ∨
    (∃ ft, reg.FindType f.Type_ = some ft ∧ (∀ b, ft ≠ .BaseType b) ∧
      s = "#/definitions/" ++ (TypeInfo ft).1) ∨
    (f.Items ≠ "" ∧ s = "#/definitions/" ++ f.Items) ∨
    (∃ a, reg.FindType f.Type_ = some (.ArrayTypeDef a) ∧ s = "#/definitions/" ++ a.Items) := by
  cases hb : reg.BaseType (reg.FindType f.Type_)
  case BaseTypeArray =>
    cases hft : reg.FindType f.Type_ with
    | none =>
      rw [hft] at hb
      unfold jsStructField at h
      simp [hb, hft] at h
    | some ft =>
      rw [hft] at hb
      rw [jsStructField_array reg f ft hft hb] at h
      simp only [Except.ok.injEq, Prod.mk.injEq] at h
      obtain ⟨-, rfl⟩ := h
      by_cases hne : arrayElementOf f ft = ""
      · simp [hne, refsObj_append, refsObj_descriptionOf, refsObj_single_str] at hs
      · simp only [hne, if_false, refsObj_append, refsObj_descriptionOf, refsObj_single_obj,
          List.nil_append] at hs
        have hs' := mem_refsObj_elementEncoding _ _ _
          (by simpa [refsObj_single_str] using hs)
        unfold arrayElementOf at hs' hne
        by_cases hi : f.Items = ""
        · simp only [hi, ne_eq, not_true_eq_false, if_false] at hs' hne
          cases ft <;> simp only [] at hs' hne
          all_goals first
            | exact absurd trivial hne
            | exact absurd rfl hne
            | exact Or.inr (Or.inr (Or.inr ⟨_, rfl, hs'⟩))
        · simp only [ne_eq, hi, not_false_eq_true, if_true] at hs'
          exact Or.inr (Or.inr (Or.inl ⟨hi, hs'⟩))
  case BaseTypeString =>
    cases hft : reg.FindType f.Type_ with
    | none =>
      rw [hft] at hb
      unfold jsStructField at h
      simp [hb, hft] at h
    | some ft =>
      rw [hft] at hb
      rw [jsStructField_string reg f ft hft hb] at h
      simp only [Except.ok.injEq, Prod.mk.injEq] at h
      obtain ⟨-, rfl⟩ := h
      simp only [refsObj_append, refsObj_descriptionOf, List.nil_append] at hs
      cases ft <;> simp [refsObj_single_str] at hs
      all_goals
        exact Or.inr (Or.inl ⟨_, rfl, (fun b hb' => by cases hb'), hs⟩)
  case BaseTypeMap =>
    rw [jsStructField_map reg f hb] at h
    simp only [Except.ok.injEq, Prod.mk.injEq] at h
    obtain ⟨-, rfl⟩ := h
    by_cases hne : f.Items = ""
    · simp [hne, refsObj_append, refsObj_descriptionOf, refsObj_single_str] at hs
    · simp only [hne, if_false, refsObj_append, refsObj_descriptionOf, refsObj_single_obj,
        List.nil_append] at hs
      exact Or.inr (Or.inr (Or.inl ⟨hne, mem_refsObj_elementEncoding _ _ _
        (by simpa [refsObj_single_str] using hs)⟩))
  all_goals
    unfold jsStructField at h
    simp only [hb, Except.ok.injEq, Prod.mk.injEq] at h
    obtain ⟨-, rfl⟩ := h
    rcases mem_refsObj_set _ _ _ _ hs with h₁ | h₁
    · rw [refsObj_initial_prop] at h₁
      cases h₁
    · simp [refsEntry] at h₁
      try exact Or.inl h₁

theorem jsTypeDef_refs (reg : TypeRegistry) (t t' : RdlType) (r : Obj)
    (h : jsTypeDef reg t = .ok (some r, t')) (s : String) (hs : s ∈ refsObj r) :
    (∃ d, t = .StructTypeDef d ∧ ∃ f ∈ d.Fields, ∃ f' p,
      jsStructField reg f = .ok (f', p) ∧ s ∈ refsObj p) ∨
    (∃ d, t = .MapTypeDef d ∧ s = "#/definitions/" ++ d.Items) ∨
    (∃ d, t = .ArrayTypeDef d ∧ s = "#/definitions/" ++ d.Items) := by
  cases t with
  | StructTypeDef d =>
    left
    rw [jsTypeDef_struct] at h
    split at h
    · cases h
    · rename_i fields required props hloop
      simp only [Except.ok.injEq, Prod.mk.injEq, Option.some.injEq] at h
      obtain ⟨rfl, -⟩ := h
      have hprops : s ∈ refsObj props := by
        split at hs
        · rcases mem_refsObj_set _ _ _ _ hs with h₁ | h₁
          · rcases mem_refsObj_set _ _ _ _ h₁ with h₂ | h₂
            · rw [refsObj_descriptionOf] at h₂
              cases h₂
            · simpa [refsEntry, refs] using h₂
          · simp [refsEntry, refs] at h₁
        · rcases mem_refsObj_set _ _ _ _ hs with h₂ | h₂
          · rw [refsObj_descriptionOf] at h₂
            cases h₂
          · simpa [refsEntry, refs] using h₂
      rcases jsStructFields_refs reg d.Fields fields [] required [] props hloop s hprops with h₁ | h₁
      · simp [refsObj] at h₁
      · exact ⟨d, rfl, h₁⟩
  | MapTypeDef d =>
    right; left
    refine ⟨d, rfl, ?_⟩
    simp only [jsTypeDef, Except.ok.injEq, Prod.mk.injEq, Option.some.injEq] at h
    obtain ⟨rfl, -⟩ := h
    split at hs
    · rcases mem_refsObj_set _ _ _ _ hs with h₁ | h₁
      · simp [JSON.set_nil, refsObj] at h₁
      · simp only [refsEntry, refs] at h₁
        split at h₁ <;> first
          | (simp [JSON.set, refsObj] at h₁; done)
          | (simp [JSON.set, refsObj] at h₁; exact h₁)
    · simp [JSON.set_nil, refsObj] at hs
  | ArrayTypeDef d =>
    right; right
    refine ⟨d, rfl, ?_⟩
    simp only [jsTypeDef, Except.ok.injEq, Prod.mk.injEq, Option.some.injEq] at h
    obtain ⟨rfl, -⟩ := h
    split at hs
    · rcases mem_refsObj_set _ _ _ _ hs with h₁ | h₁
      · simp [JSON.set_nil, refsObj] at h₁
      · simp only [refsEntry, refs] at h₁
        split at h₁ <;> first
          | (simp [JSON.set, refsObj] at h₁; done)
          | (simp [JSON.set, refsObj] at h₁; exact h₁)
    · simp [JSON.set_nil, refsObj] at hs
  | EnumTypeDef d =>
    simp only [jsTypeDef, Except.ok.injEq, Prod.mk.injEq, Option.some.injEq] at h
    obtain ⟨rfl, -⟩ := h
    simp [JSON.set_nil, refsObj, refs] at hs
  | UnionTypeDef d =>
    simp only [jsTypeDef, Except.ok.injEq, Prod.mk.injEq, Option.some.injEq] at h
    obtain ⟨rfl, -⟩ := h
    simp [refsObj] at hs
  | BaseType b =>
    simp only [jsTypeDef] at h
    split at h <;> simp only [Except.ok.injEq, Prod.mk.injEq, Option.some.injEq, reduceCtorEq,
      false_and] at h
    obtain ⟨rfl, -⟩ := h
    simp [JSON.set_nil, refsObj] at hs
  | AliasTypeDef d =>
    simp only [jsTypeDef] at h
    split at h <;> simp only [Except.ok.injEq, Prod.mk.injEq, Option.some.injEq, reduceCtorEq,
      false_and] at h
    obtain ⟨rfl, -⟩ := h
    simp [JSON.set_nil, refsObj] at hs
  | StringTypeDef d =>
    simp only [jsTypeDef] at h
    split at h <;> simp only [Except.ok.injEq, Prod.mk.injEq, Option.some.injEq, reduceCtorEq,
      false_and] at h
    · obtain ⟨rfl, -⟩ := h
      exfalso
      have key : ∀ (m : Obj) (k : String) (v : JSON), k ≠ "$ref" → refsObj m = [] →
          (∀ w, v ≠ .obj w) → refsObj (JSON.set m k v) = [] := by
        intro m k v hk hm hv
        apply List.eq_nil_iff_forall_not_mem.mpr
        intro x hx
        rcases mem_refsObj_set _ _ _ _ hx with h₁ | h₁
        · rw [hm] at h₁
          cases h₁
        · cases v with
          | obj w => exact hv w rfl
          | str z => simp [refsEntry, hk] at h₁
          | num z => simp [refsEntry, refs] at h₁
          | strs z => simp [refsEntry, refs] at h₁
      have h₀ : refsObj (JSON.set [] "type" (.str "string")) = [] :=
        key _ _ _ (by decide) rfl (fun w hw => by cases hw)
      have h₁ : refsObj (match d.MaxSize with
          | some n => JSON.set (JSON.set [] "type" (.str "string")) "maxLength" (.num n)
          | none => JSON.set [] "type" (.str "string")) = [] := by
        cases d.MaxSize with
        | none => exact h₀
        | some n => exact key _ _ _ (by decide) h₀ (fun w hw => by cases hw)
      have h₂ : refsObj (match d.MinSize with
          | some n => JSON.set (match d.MaxSize with
              | some n => JSON.set (JSON.set [] "type" (.str "string")) "maxLength" (.num n)
              | none => JSON.set [] "type" (.str "string")) "minLength" (.num n)
          | none => (match d.MaxSize with
              | some n => JSON.set (JSON.set [] "type" (.str "string")) "maxLength" (.num n)
              | none => JSON.set [] "type" (.str "string"))) = [] := by
        cases d.MinSize with
        | none => exact h₁
        | some n => exact key _ _ _ (by decide) h₁ (fun w hw => by cases hw)
      split at hs
      · rw [key _ _ _ (by decide) h₂ (fun w hw => by cases hw)] at hs
        cases hs
      · rw [h₂] at hs
        cases hs
    · obtain ⟨rfl, -⟩ := h
      simp [JSON.set_nil, refsObj] at hs

/-! ## Resolution of references -/

theorem definitions_ref_inj (a b : String)
    (h : "#/definitions/" ++ a = "#/definitions/" ++ b) : a = b := by
  have hd := congrArg String.data h
  simp only [String.data_append] at hd
  exact String.ext (List.append_cancel_left hd)

theorem resolves_iff (schema : Schema) (ref : TypeRef) :
    resolves schema ref = true ↔
      (baseTypeByName ref).isSome = true ∨ ∃ t ∈ schema.Types, (TypeInfo t).1 = ref := by
  simp [resolves]

theorem findType_mem (types : List RdlType) (ref : TypeRef) (t : RdlType)
    (h : findType types ref = some t) : (∃ b, t = .BaseType b) ∨ t ∈ types := by
  unfold findType at h
  split at h
  · rename_i u hu
    simp only [Option.some.injEq] at h
    subst h
    exact Or.inr (List.mem_of_find?_eq_some hu)
  · cases hb : baseTypeByName ref with
    | none => simp [hb] at h
    | some b =>
      simp only [hb, Option.map_some', Option.some.injEq] at h
      exact Or.inl ⟨b, h.symm⟩

theorem jsTypeDef_refs_resolve (reg : TypeRegistry) (schema : Schema)
    (hreg : ∀ ref t, reg.FindType ref = some t → (∃ b, t = .BaseType b) ∨ t ∈ schema.Types)
    (hwr : wellReferenced schema = true) (t t' : RdlType) (ht : t ∈ schema.Types) (r : Obj)
    (h : jsTypeDef reg t = .ok (some r, t')) (s : String) (hs : s ∈ refsObj r) :
    ∃ X, s = "#/definitions/" ++ X ∧ resolves schema X = true := by
  have hall : ∀ u ∈ schema.Types, wellReferencedType schema u = true := by
    simpa [wellReferenced] using hwr
  rcases jsTypeDef_refs reg t t' r h s hs with
    ⟨d, rfl, f, hf, f', p, hfp, hsp⟩ | ⟨d, rfl, rfl⟩ | ⟨d, rfl, rfl⟩
  · have hd := hall _ ht
    simp only [wellReferencedType, List.all_eq_true, Bool.and_eq_true, Bool.or_eq_true,
      decide_eq_true_eq] at hd
    obtain ⟨hty, hit⟩ := hd f hf
    rcases jsStructField_refs reg f f' p hfp s hsp with
      rfl | ⟨ft, hft, hnb, rfl⟩ | ⟨hne, rfl⟩ | ⟨a, hft, rfl⟩
    · exact ⟨_, rfl, hty⟩
    · refine ⟨_, rfl, (resolves_iff _ _).mpr (Or.inr ⟨ft, ?_, rfl⟩)⟩
      rcases hreg _ _ hft with ⟨b, hb⟩ | hmem
      · exact absurd hb (hnb b)
      · exact hmem
    · rcases hit with h₁ | h₁
      · exact absurd h₁ hne
      · exact ⟨_, rfl, h₁⟩
    · refine ⟨_, rfl, ?_⟩
      rcases hreg _ _ hft with ⟨b, hb⟩ | hmem
      · cases hb
      · exact hall _ hmem
  · exact ⟨_, rfl, hall _ ht⟩
  · exact ⟨_, rfl, hall _ ht⟩

/-! ## The document -/

theorem mem_keys_set (m : Obj) (k k' : String) (v : JSON) :
    k' ∈ keys (JSON.set m k v) ↔ k' = k ∨ k' ∈ keys m := by
  rw [mem_keys_iff_get, mem_keys_iff_get]
  by_cases hk : k' = k
  · subst hk
    simp [get_set_self]
  · rw [get_set_ne _ _ _ _ hk]
    simp [hk]

theorem jsGenerateTypes_keys (reg : TypeRegistry) (ts ts' : List RdlType) (defs defs' : Obj)
    (h : jsGenerateTypes reg ts defs = .ok (defs', ts')) (n : String) :
    n ∈ keys defs' ↔ n ∈ keys defs ∨
      ∃ t ∈ ts, (TypeInfo t).1 = n ∧ ∃ r t', jsTypeDef reg t = .ok (some r, t') := by
  induction ts generalizing ts' defs with
  | nil =>
    simp only [jsGenerateTypes, Except.ok.injEq, Prod.mk.injEq] at h
    rw [← h.1]
    simp
  | cons t rest ih =>
    obtain ⟨ref, t', rest', ht, -, hrest⟩ := jsGenerateTypes_cons_ok reg t rest ts' defs defs' h
    rw [ih _ _ hrest]
    cases ref with
    | none =>
      constructor
      · rintro (h₁ | ⟨u, hu, hn, hr⟩)
        · exact Or.inl h₁
        · exact Or.inr ⟨u, List.mem_cons_of_mem _ hu, hn, hr⟩
      · rintro (h₁ | ⟨u, hu, hn, r, u', hr⟩)
        · exact Or.inl h₁
        · rcases List.mem_cons.mp hu with rfl | hu'
          · rw [ht] at hr
            simp at hr
          · exact Or.inr ⟨u, hu', hn, r, u', hr⟩
    | some r =>
      simp only [mem_keys_set]
      constructor
      · rintro ((h₁ | h₁) | ⟨u, hu, hn, hr⟩)
        · exact Or.inr ⟨t, List.mem_cons_self _ _, h₁.symm, r, t', ht⟩
        · exact Or.inl h₁
        · exact Or.inr ⟨u, List.mem_cons_of_mem _ hu, hn, hr⟩
      · rintro (h₁ | ⟨u, hu, hn, hr⟩)
        · exact Or.inl (Or.inr h₁)
        · rcases List.mem_cons.mp hu with rfl | hu'
          · exact Or.inl (Or.inl hn.symm)
          · exact Or.inr ⟨u, hu', hn, hr⟩

theorem jsGenerate_empty (newReg : Schema → TypeRegistry) (schema : Schema) (basePath : String)
    (hnil : schema.Types = []) :
    jsGenerate newReg schema basePath =
      .ok ([("$schema", .str "http://json-schema.org/draft-04/schema#")], schema) := by
  simp [jsGenerate, hnil, JSON.set_nil]

theorem jsGenerate_nonempty (newReg : Schema → TypeRegistry) (schema : Schema)
    (basePath : String) (hne : schema.Types ≠ [])
    (hok : ∀ t ∈ schema.Types, ∃ r, jsTypeDef (newReg schema) t = .ok r) :
    ∃ defs types, jsGenerateTypes (newReg schema) schema.Types [] = .ok (defs, types) ∧
      jsGenerate newReg schema basePath =
        .ok ([("$schema", .str "http://json-schema.org/draft-04/schema#"),
              ("definitions", .obj defs)], { schema with Types := types }) := by
  obtain ⟨⟨defs, types⟩, hloop⟩ := jsGenerateTypes_ok (newReg schema) schema.Types hok []
  refine ⟨defs, types, hloop, ?_⟩
  have hlen : schema.Types.length > 0 := List.length_pos.mpr hne
  simp [jsGenerate, hlen, hloop, JSON.set]

/-! ## Claims -/

/-- C1 (as stated, refuted): reference closure fails on `Example.people`. Every
reference of the schema resolves, yet the document holds the reference
`#/definitions/Name`, and `Name` is neither a built-in type name nor a key of
`definitions`: the unconstrained string alias `Name` gets no definition, while
a field of that type is emitted as a `$ref` to it. -/
theorem jsGenerate_dangling_reference :
    wellReferenced Example.people = true ∧
    jsGenerate NewTypeRegistry Example.people "" =
      .ok (Example.peopleDocument, Example.people) ∧
    "#/definitions/Name" ∈ refs (.obj Example.peopleDocument) ∧
    baseTypeByName "Name" = none ∧
    "Name" ∉ keys (definitionsOf Example.peopleDocument) := by
  refine ⟨by decide, rfl, by decide, by decide, by decide⟩

/-- C1 (amended): for a registry that answers with built-in types or types of
the schema, and a schema in which every reference used by a field or a
collection element resolves, `jsGenerate` returns whenever `jsTypeDef` returns
on every type, and every `#/definitions/X` stored under `$ref` anywhere in the
document has `X` a built-in type name, or a key of `definitions`, or the name of
a declared type for which `jsTypeDef` returns nil. -/
theorem jsGenerate_refs_declared (newReg : Schema → TypeRegistry) (schema : Schema)
    (basePath : String)
    (hreg : ∀ ref t, (newReg schema).FindType ref = some t →
      (∃ b, t = .BaseType b) ∨ t ∈ schema.Types)
    (hwr : wellReferenced schema = true)
    (hok : ∀ t ∈ schema.Types, ∃ r, jsTypeDef (newReg schema) t = .ok r) :
    ∃ js schema', jsGenerate newReg schema basePath = .ok (js, schema') ∧
      ∀ X, "#/definitions/" ++ X ∈ refs (.obj js) →
        (baseTypeByName X).isSome = true ∨ X ∈ keys (definitionsOf js) ∨
        ∃ t ∈ schema.Types, (TypeInfo t).1 = X ∧
          ∃ t', jsTypeDef (newReg schema) t = .ok (none, t') := by
  by_cases hne : schema.Types = []
  · refine ⟨_, _, jsGenerate_empty newReg schema basePath hne, ?_⟩
    intro X hX
    simp [refs, refsObj] at hX
  · obtain ⟨defs, types, hloop, hgen⟩ := jsGenerate_nonempty newReg schema basePath hne hok
    refine ⟨_, _, hgen, ?_⟩
    intro X hX
    have hdefs : definitionsOf [("$schema", .str "http://json-schema.org/draft-04/schema#"),
        ("definitions", .obj defs)] = defs := by
      simp [definitionsOf, JSON.get]
    rw [hdefs]
    have hX' : "#/definitions/" ++ X ∈ refsObj defs := by
      simpa [refs, refsObj] using hX
    rcases jsGenerateTypes_refs _ _ _ _ _ hloop _ hX' with h₁ | ⟨t, ht, r, t', htr, hs⟩
    · simp [refsObj] at h₁
    · obtain ⟨Y, hY, hres⟩ := jsTypeDef_refs_resolve _ schema hreg hwr t t' ht r htr _ hs
      have hXY : X = Y := definitions_ref_inj _ _ hY
      subst hXY
      rcases (resolves_iff _ _).mp hres with hb | ⟨u, hu, hname⟩
      · exact Or.inl hb
      · obtain ⟨⟨ref, u'⟩, hur⟩ := hok u hu
        cases ref with
        | none => exact Or.inr (Or.inr ⟨u, hu, hname, u', hur⟩)
        | some q =>
          refine Or.inr (Or.inl ?_)
          rw [jsGenerateTypes_keys _ _ _ _ _ hloop]
          exact Or.inr ⟨u, hu, hname, q, u', hur⟩

/-- C1 (amended), at `Example.people`: the reference to `Name` falls under the
third case. -/
theorem jsGenerate_refs_declared_people :
    wellReferenced Example.people = true ∧
    ∃ js schema', jsGenerate NewTypeRegistry Example.people "" = .ok (js, schema') ∧
      ∀ X, "#/definitions/" ++ X ∈ refs (.obj js) →
        (baseTypeByName X).isSome = true ∨ X ∈ keys (definitionsOf js) ∨
        ∃ t ∈ Example.people.Types, (TypeInfo t).1 = X ∧
          ∃ t', jsTypeDef (NewTypeRegistry Example.people) t = .ok (none, t') :=
  ⟨by decide,
   jsGenerate_refs_declared NewTypeRegistry Example.people ""
    (fun ref t h => findType_mem _ ref t h) (by decide)
    (by
      intro t ht
      simp only [Example.people, List.mem_cons, List.mem_singleton, List.not_mem_nil,
        or_false] at ht
      rcases ht with rfl | rfl <;> exact ⟨_, rfl⟩)⟩

/-- C2: for a schema with at least one type and pairwise distinct type names,
`jsGenerate` returns whenever `jsTypeDef` returns on every type; the document
has a `definitions` object; a name `n` has the value `v` there exactly when a
declared type named `n` has a non-nil `jsTypeDef` fragment and `v` is that
fragment; and every key of `definitions` is a declared type name. -/
theorem jsGenerate_definitions (newReg : Schema → TypeRegistry) (schema : Schema)
    (basePath : String) (hne : schema.Types ≠ [])
    (hnd : (schema.Types.map (fun t => (TypeInfo t).1)).Nodup)
    (hok : ∀ t ∈ schema.Types, ∃ r, jsTypeDef (newReg schema) t = .ok r) :
    ∃ js schema' defs, jsGenerate newReg schema basePath = .ok (js, schema') ∧
      get js "definitions" = some (.obj defs) ∧
      (∀ n v, get defs n = some v ↔
        ∃ t ∈ schema.Types, (TypeInfo t).1 = n ∧
          ∃ r t', jsTypeDef (newReg schema) t = .ok (some r, t') ∧ v = .obj r) ∧
      (∀ n ∈ keys defs, n ∈ schema.Types.map (fun t => (TypeInfo t).1)) := by
  obtain ⟨defs, types, hloop, hgen⟩ := jsGenerate_nonempty newReg schema basePath hne hok
  refine ⟨_, _, defs, hgen, by simp [JSON.get], ?_, ?_⟩
  · intro n v
    rw [jsGenerateTypes_get _ _ _ _ _ hloop hnd n v]
    constructor
    · rintro (h | ⟨-, h⟩)
      · exact h
      · simp [JSON.get] at h
    · exact fun h => Or.inl h
  · intro n hn
    rcases (jsGenerateTypes_keys _ _ _ _ _ hloop n).mp hn with h | ⟨t, ht, hname, -⟩
    · simp [keys] at h
    · exact List.mem_map.mpr ⟨t, ht, hname⟩

/-- C2, at `Example.people`: two types with distinct names. -/
theorem jsGenerate_definitions_people :
    Example.people.Types ≠ [] ∧
    (Example.people.Types.map (fun t => (TypeInfo t).1)).Nodup ∧
    ∃ js schema' defs, jsGenerate NewTypeRegistry Example.people "" = .ok (js, schema') ∧
      get js "definitions" = some (.obj defs) ∧
      (∀ n v, get defs n = some v ↔
        ∃ t ∈ Example.people.Types, (TypeInfo t).1 = n ∧
          ∃ r t', jsTypeDef (NewTypeRegistry Example.people) t = .ok (some r, t') ∧
            v = .obj r) ∧
      (∀ n ∈ keys defs, n ∈ Example.people.Types.map (fun t => (TypeInfo t).1)) :=
  ⟨by decide, by decide,
   jsGenerate_definitions NewTypeRegistry Example.people "" (by decide) (by decide)
    (by
      intro t ht
      simp only [Example.people, List.mem_cons, List.mem_singleton, List.not_mem_nil,
        or_false] at ht
      rcases ht with rfl | rfl <;> exact ⟨_, rfl⟩)⟩

/-- C3 (as stated, refuted): the schema `Example.ages` declares one type, the
numeric alias `Age`, for which `jsTypeDef` returns nil; the document
nevertheless has the key `definitions`, holding an empty object. -/
theorem jsGenerate_definitions_without_fragment :
    Example.ages.Types = [Example.age] ∧
    jsTypeDef (NewTypeRegistry Example.ages) Example.age = .ok (none, Example.age) ∧
    jsGenerate NewTypeRegistry Example.ages "" =
      .ok ([("$schema", .str "http://json-schema.org/draft-04/schema#"),
            ("definitions", .obj [])], Example.ages) ∧
    "definitions" ∈ keys [("$schema", JSON.str "http://json-schema.org/draft-04/schema#"),
      ("definitions", JSON.obj [])] := by
  refine ⟨rfl, rfl, rfl, by decide⟩

/-- C3 (amended): `jsGenerate` returns whenever `jsTypeDef` returns on every
type, and the document has the key `definitions` if and only if the schema
declares at least one type. -/
theorem jsGenerate_definitions_iff_types (newReg : Schema → TypeRegistry) (schema : Schema)
    (basePath : String)
    (hok : ∀ t ∈ schema.Types, ∃ r, jsTypeDef (newReg schema) t = .ok r) :
    ∃ js schema', jsGenerate newReg schema basePath = .ok (js, schema') ∧
      ("definitions" ∈ keys js ↔ schema.Types ≠ []) := by
  by_cases hne : schema.Types = []
  · refine ⟨_, _, jsGenerate_empty newReg schema basePath hne, ?_⟩
    simp [keys, hne]
  · obtain ⟨defs, types, -, hgen⟩ := jsGenerate_nonempty newReg schema basePath hne hok
    refine ⟨_, _, hgen, ?_⟩
    simp [keys, hne]

/-- C3 (amended), at `Example.ages`. -/
theorem jsGenerate_definitions_iff_types_ages :
    ∃ js schema', jsGenerate NewTypeRegistry Example.ages "" = .ok (js, schema') ∧
      ("definitions" ∈ keys js ↔ Example.ages.Types ≠ []) :=
  jsGenerate_definitions_iff_types NewTypeRegistry Example.ages ""
    (by
      intro t ht
      simp only [Example.ages, List.mem_singleton] at ht
      subst ht
      exact ⟨_, rfl⟩)

/-- C4: for a struct whose field types the registry finds, `jsTypeDef` returns a
fragment whose `required` entry is the list of the names of the non-optional
fields in declared order whenever that list is non-empty; the fragment has no
`required` key if and only if every field is optional; and a name is in the
list if and only if it is the name of a non-optional field. -/
theorem jsTypeDef_required (reg : TypeRegistry) (d : StructTypeDef)
    (hres : ∀ f ∈ d.Fields, (reg.FindType f.Type_).isSome = true) :
    ∃ st t', jsTypeDef reg (.StructTypeDef d) = .ok (some st, t') ∧
      (requiredNames d.Fields ≠ [] →
        get st "required" = some (.strs (requiredNames d.Fields))) ∧
      (get st "required" = none ↔ ∀ f ∈ d.Fields, f.Optional = true) ∧
      (∀ n, n ∈ requiredNames d.Fields ↔ ∃ f ∈ d.Fields, f.Name = n ∧ f.Optional = false) := by
  obtain ⟨fields, props, -, hdef⟩ := jsTypeDef_struct_ok reg d hres
  have hnil : requiredNames d.Fields = [] ↔ ∀ f ∈ d.Fields, f.Optional = true := by
    simp [requiredNames, List.filter_eq_nil_iff]
  have hdesc : get (descriptionOf d.Comment) "required" = none := by
    unfold descriptionOf
    split <;> simp [JSON.get]
  refine ⟨_, _, hdef, ?_, ?_, ?_⟩
  · intro hne
    have hlen : (requiredNames d.Fields).length > 0 := List.length_pos.mpr hne
    rw [if_pos hlen, get_set_self]
  · rw [← hnil]
    by_cases hreq : requiredNames d.Fields = []
    · have hlen : ¬ (requiredNames d.Fields).length > 0 := by simp [hreq]
      rw [if_neg hlen, get_set_ne _ _ _ _ (by decide), hdesc]
      simp [hreq]
    · have hlen : (requiredNames d.Fields).length > 0 := List.length_pos.mpr hreq
      rw [if_pos hlen, get_set_self]
      simp [hreq]
  · intro n
    simp only [requiredNames, List.mem_map, List.mem_filter, Bool.not_eq_true']
    constructor
    · rintro ⟨f, ⟨hf, hopt⟩, hn⟩
      exact ⟨f, hf, hn, hopt⟩
    · rintro ⟨f, hf, hn, hopt⟩
      exact ⟨f, ⟨hf, hopt⟩, hn⟩

/-- C4, at `Example.person`: `name` is required, `nick` is optional. -/
theorem jsTypeDef_required_person :
    ∃ st t', jsTypeDef (NewTypeRegistry Example.people) (.StructTypeDef Example.person)
        = .ok (some st, t') ∧
      (requiredNames Example.person.Fields ≠ [] →
        get st "required" = some (.strs (requiredNames Example.person.Fields))) ∧
      (get st "required" = none ↔ ∀ f ∈ Example.person.Fields, f.Optional = true) ∧
      (∀ n, n ∈ requiredNames Example.person.Fields ↔
        ∃ f ∈ Example.person.Fields, f.Name = n ∧ f.Optional = false) :=
  jsTypeDef_required (NewTypeRegistry Example.people) Example.person (by decide)

/-- C5: in a struct with distinct field names whose field types the registry
finds, a field whose declared type `ft` has base type String is emitted, under
its name in `properties`, as the `description` entry of its comment (when
non-empty) followed by `"type":"string"` when `ft` is a built-in type, and
followed by `"$ref":"#/definitions/<name of ft>"`, with no `type` key, when `ft`
is a named type. -/
theorem jsTypeDef_string_field (reg : TypeRegistry) (d : StructTypeDef) (f : StructFieldDef)
    (ft : RdlType) (hf : f ∈ d.Fields)
    (hres : ∀ g ∈ d.Fields, (reg.FindType g.Type_).isSome = true)
    (hnd : (d.Fields.map (fun g => g.Name)).Nodup)
    (hft : reg.FindType f.Type_ = some ft)
    (hb : reg.BaseType (some ft) = .BaseTypeString) :
    ∃ st t' props p, jsTypeDef reg (.StructTypeDef d) = .ok (some st, t') ∧
      get st "properties" = some (.obj props) ∧ get props f.Name = some (.obj p) ∧
      ((∃ b, ft = .BaseType b) →
        p = descriptionOf f.Comment ++ [("type", .str "string")]) ∧
      ((∀ b, ft ≠ .BaseType b) →
        p = descriptionOf f.Comment ++ [("$ref", .str ("#/definitions/" ++ (TypeInfo ft).1))] ∧
        get p "type" = none) := by
  obtain ⟨st, t', props, f', p, hdef, hprops, hfp, hget⟩ :=
    jsTypeDef_struct_property reg d hres hnd f hf
  rw [jsStructField_string reg f ft hft hb] at hfp
  simp only [Except.ok.injEq, Prod.mk.injEq] at hfp
  obtain ⟨-, rfl⟩ := hfp
  refine ⟨st, t', props, _, hdef, hprops, hget, ?_, ?_⟩
  · rintro ⟨b, rfl⟩
    rfl
  · intro hnb
    have hdesc : get (descriptionOf f.Comment ++
        [("$ref", JSON.str ("#/definitions/" ++ (TypeInfo ft).1))]) "type" = none := by
      unfold descriptionOf
      split <;> simp [JSON.get]
    cases ft with
    | BaseType b => exact absurd rfl (hnb b)
    | _ => exact ⟨rfl, hdesc⟩

/-- C5, at `Example.person`: `name`, of the named string type `Name`, becomes a
reference; `nick`, of the built-in type String, becomes a string. -/
theorem jsTypeDef_string_field_person :
    (∃ st t' props p,
      jsTypeDef (NewTypeRegistry Example.people) (.StructTypeDef Example.person)
        = .ok (some st, t') ∧
      get st "properties" = some (.obj props) ∧ get props "name" = some (.obj p) ∧
      ((∃ b, Example.nameAlias = .BaseType b) →
        p = descriptionOf "" ++ [("type", .str "string")]) ∧
      ((∀ b, Example.nameAlias ≠ .BaseType b) →
        p = descriptionOf "" ++ [("$ref", .str ("#/definitions/" ++ "Name"))] ∧
        get p "type" = none)) ∧
    (∃ st t' props p,
      jsTypeDef (NewTypeRegistry Example.people) (.StructTypeDef Example.person)
        = .ok (some st, t') ∧
      get st "properties" = some (.obj props) ∧ get props "nick" = some (.obj p) ∧
      ((∃ b, RdlType.BaseType .BaseTypeString = .BaseType b) →
        p = descriptionOf "short name" ++ [("type", .str "string")]) ∧
      ((∀ b, RdlType.BaseType .BaseTypeString ≠ .BaseType b) →
        p = descriptionOf "short name" ++
          [("$ref", .str ("#/definitions/" ++ "String"))] ∧
        get p "type" = none)) :=
  ⟨jsTypeDef_string_field (NewTypeRegistry Example.people) Example.person
      ⟨"name", "Name", false, "", ""⟩ Example.nameAlias (by decide) (by decide) (by decide)
      rfl rfl,
   jsTypeDef_string_field (NewTypeRegistry Example.people) Example.person
      ⟨"nick", "String", true, "", "short name"⟩ (.BaseType .BaseTypeString) (by decide)
      (by decide) (by decide) rfl rfl⟩

/-- C6 (as stated, refuted): the field `tags` of `Example.bag` has the declared
type `Array`, of base type Array, and no items reference; the property emitted
for it is `"type":"array"` alone, without an `items` entry. -/
theorem jsTypeDef_array_field_without_items :
    (NewTypeRegistry Example.bags).FindType "Array" = some (.BaseType .BaseTypeArray) ∧
    (NewTypeRegistry Example.bags).BaseType (some (.BaseType .BaseTypeArray))
      = .BaseTypeArray ∧
    jsTypeDef (NewTypeRegistry Example.bags) (.StructTypeDef Example.bag) =
      .ok (some [("properties", .obj [("tags", .obj [("type", .str "array")])])],
        .StructTypeDef Example.bag) ∧
    get [("type", JSON.str "array")] "items" = none := by
  refine ⟨rfl, rfl, rfl, rfl⟩

/-- C6 (amended): in a struct with distinct field names whose field types the
registry finds, a field whose declared type `ft` has base type Array is
emitted, under its name in `properties`, as the `description` entry of its
comment (when non-empty), then `"type":"array"`, then an `items` entry exactly
when the element reference `e` is non-empty, where `e` is the items reference
of the field when that is non-empty, otherwise the element type of `ft` when
`ft` is an array type, otherwise empty. The `items` entry is the element
encoding of `e` without `format`. -/
theorem jsTypeDef_array_field (reg : TypeRegistry) (d : StructTypeDef) (f : StructFieldDef)
    (ft : RdlType) (hf : f ∈ d.Fields)
    (hres : ∀ g ∈ d.Fields, (reg.FindType g.Type_).isSome = true)
    (hnd : (d.Fields.map (fun g => g.Name)).Nodup)
    (hft : reg.FindType f.Type_ = some ft)
    (hb : reg.BaseType (some ft) = .BaseTypeArray) :
    ∃ st t' props, jsTypeDef reg (.StructTypeDef d) = .ok (some st, t') ∧
      get st "properties" = some (.obj props) ∧
      get props f.Name = some (.obj
        (descriptionOf f.Comment ++ [("type", .str "array")] ++
          (if arrayElementOf f ft = "" then []
           else [("items", .obj (elementEncoding false (arrayElementOf f ft)))]))) ∧
      get (elementEncoding false (arrayElementOf f ft)) "format" = none := by
  obtain ⟨st, t', props, f', p, hdef, hprops, hfp, hget⟩ :=
    jsTypeDef_struct_property reg d hres hnd f hf
  rw [jsStructField_array reg f ft hft hb] at hfp
  simp only [Except.ok.injEq, Prod.mk.injEq] at hfp
  obtain ⟨-, rfl⟩ := hfp
  refine ⟨st, t', props, hdef, hprops, hget, ?_⟩
  unfold elementEncoding
  split
  · simp [JSON.get]
  · split <;> simp [JSON.get]

/-- C6 (amended), at the field `players` of `Example.team` (section 8,
scenario 4): the items are a reference to `Player`. -/
theorem jsTypeDef_array_field_team :
    arrayElementOf ⟨"players", "Array", false, "Player", ""⟩ (.BaseType .BaseTypeArray)
      = "Player" ∧
    elementEncoding false "Player" = [("$ref", .str "#/definitions/Player")] ∧
    ∃ st t' props,
      jsTypeDef (NewTypeRegistry Example.teams) (.StructTypeDef Example.team)
        = .ok (some st, t') ∧
      get st "properties" = some (.obj props) ∧
      get props "players" = some (.obj
        (descriptionOf "" ++ [("type", .str "array")] ++
          (if arrayElementOf ⟨"players", "Array", false, "Player", ""⟩
              (.BaseType .BaseTypeArray) = "" then []
           else [("items", .obj (elementEncoding false
              (arrayElementOf ⟨"players", "Array", false, "Player", ""⟩
                (.BaseType .BaseTypeArray))))]))) ∧
      get (elementEncoding false
        (arrayElementOf ⟨"players", "Array", false, "Player", ""⟩
          (.BaseType .BaseTypeArray))) "format" = none :=
  ⟨by decide, rfl,
   jsTypeDef_array_field (NewTypeRegistry Example.teams) Example.team
    ⟨"players", "Array", false, "Player", ""⟩ (.BaseType .BaseTypeArray) (by decide)
    (by decide) (by decide) rfl rfl⟩

/-- C7 (as stated, refuted): the field `c` of `Example.stats` has the declared
type `Counters`, a map type, and no items reference; the property emitted for
it is `"type":"object"` alone, without an `additionalProperties` entry. -/
theorem jsTypeDef_map_field_without_items :
    (NewTypeRegistry Example.statistics).FindType "Counters" = some Example.counters ∧
    (NewTypeRegistry Example.statistics).BaseType (some Example.counters) = .BaseTypeMap ∧
    jsTypeDef (NewTypeRegistry Example.statistics) (.StructTypeDef Example.stats) =
      .ok (some [("properties", .obj [("c", .obj [("type", .str "object")])]),
                 ("required", .strs ["c"])],
        .StructTypeDef Example.stats) ∧
    get [("type", JSON.str "object")] "additionalProperties" = none := by
  refine ⟨rfl, rfl, rfl, rfl⟩

/-- C7 (amended): in a struct with distinct field names whose field types the
registry finds, a field whose declared type has base type Map is emitted, under
its name in `properties`, as the `description` entry of its comment (when
non-empty), then `"type":"object"`, then an `additionalProperties` entry
exactly when the items reference `e` of the field is non-empty. That entry is
the element encoding of `e` with `format` for the integer names. -/
theorem jsTypeDef_map_field (reg : TypeRegistry) (d : StructTypeDef) (f : StructFieldDef)
    (hf : f ∈ d.Fields)
    (hres : ∀ g ∈ d.Fields, (reg.FindType g.Type_).isSome = true)
    (hnd : (d.Fields.map (fun g => g.Name)).Nodup)
    (hb : reg.BaseType (reg.FindType f.Type_) = .BaseTypeMap) :
    ∃ st t' props, jsTypeDef reg (.StructTypeDef d) = .ok (some st, t') ∧
      get st "properties" = some (.obj props) ∧
      get props f.Name = some (.obj
        (descriptionOf f.Comment ++ [("type", .str "object")] ++
          (if f.Items = "" then []
           else [("additionalProperties", .obj (elementEncoding true f.Items))]))) := by
  obtain ⟨st, t', props, f', p, hdef, hprops, hfp, hget⟩ :=
    jsTypeDef_struct_property reg d hres hnd f hf
  rw [jsStructField_map reg f hb] at hfp
  simp only [Except.ok.injEq, Prod.mk.injEq] at hfp
  obtain ⟨-, rfl⟩ := hfp
  exact ⟨st, t', props, hdef, hprops, hget⟩

/-- C7 (amended), at the field `c` of `Example.tally` (section 8, scenario 5):
the element type `Int64` gives an integer with format `int64`. -/
theorem jsTypeDef_map_field_tally :
    elementEncoding true "Int64" = [("type", .str "integer"), ("format", .str "int64")] ∧
    ∃ st t' props,
      jsTypeDef (NewTypeRegistry Example.tallies) (.StructTypeDef Example.tally)
        = .ok (some st, t') ∧
      get st "properties" = some (.obj props) ∧
      get props "c" = some (.obj
        (descriptionOf "" ++ [("type", .str "object")] ++
          (if ("Int64" : String) = "" then []
           else [("additionalProperties", .obj (elementEncoding true "Int64"))]))) :=
  ⟨rfl,
   jsTypeDef_map_field (NewTypeRegistry Example.tallies) Example.tally
    ⟨"c", "Map", false, "Int64", ""⟩ (by decide) (by decide) (by decide) rfl⟩

/-- C8 (defect of the source): the array type `Example.hosts` has the element
type `Hostname`, a user-defined string type. `jsTypeDef` selects the case by
the base type of the element (String) and then lower-cases the element name,
so the items are `"type":"hostname"` and not a reference to `Hostname`. The
sibling path for an array-valued field of a struct, which selects the case by
the element name, emits the reference for the same element. -/
theorem jsTypeDef_array_of_alias :
    (NewTypeRegistry Example.network).FindBaseType "Hostname" = .BaseTypeString ∧
    jsTypeDef (NewTypeRegistry Example.network) Example.hosts =
      .ok (some [("type", .str "Array"), ("items", .obj [("type", .str "hostname")])],
        Example.hosts) ∧
    jsStructField (NewTypeRegistry Example.network) ⟨"members", "Array", false, "Hostname", ""⟩ =
      .ok (⟨"members", "Array", false, "Hostname", ""⟩,
        [("type", .str "array"), ("items", .obj [("$ref", .str "#/definitions/Hostname")])]) := by
  refine ⟨rfl, rfl, rfl⟩

/-- C9 (defect of the source): the map type `Example.hostTable` has the element
type `Hostname`, a user-defined string type. `jsTypeDef` selects the case by
the base type of the element (String) and then lower-cases the element name,
so `additionalProperties` is `"type":"hostname"` and not a reference to
`Hostname`. The sibling path for a map-valued field of a struct, which selects
the case by the element name, emits the reference for the same element. -/
theorem jsTypeDef_map_of_alias :
    (NewTypeRegistry Example.network).FindBaseType "Hostname" = .BaseTypeString ∧
    jsTypeDef (NewTypeRegistry Example.network) Example.hostTable =
      .ok (some [("type", .str "object"),
                 ("additionalProperties", .obj [("type", .str "hostname")])],
        Example.hostTable) ∧
    jsStructField (NewTypeRegistry Example.network) ⟨"byRole", "Map", false, "Hostname", ""⟩ =
      .ok (⟨"byRole", "Map", false, "Hostname", ""⟩,
        [("type", .str "object"),
         ("additionalProperties", .obj [("$ref", .str "#/definitions/Hostname")])]) := by
  refine ⟨rfl, rfl, rfl⟩

/-- C10 (defect of the source): for every array type the `type` value of the
fragment is the string form of the base type the registry gives it. For
`Example.names` that base type is Array and its string form is the symbol
`Array`, capitalised, not the JSON Schema keyword `array`; the sibling path for
an array-valued field of a struct writes the literal `array`. -/
theorem jsTypeDef_array_type_value :
    (∀ (reg : TypeRegistry) (d : ArrayTypeDef), ∃ st,
      jsTypeDef reg (.ArrayTypeDef d) = .ok (some st, .ArrayTypeDef d) ∧
      get st "type" = some (.str (reg.BaseType (some (.ArrayTypeDef d))).String)) ∧
    (NewTypeRegistry Example.rosters).BaseType (some Example.names) = .BaseTypeArray ∧
    jsTypeDef (NewTypeRegistry Example.rosters) Example.names =
      .ok (some [("type", .str "Array"), ("items", .obj [("type", .str "string")])],
        Example.names) ∧
    jsStructField (NewTypeRegistry Example.rosters) ⟨"names", "Array", false, "String", ""⟩ =
      .ok (⟨"names", "Array", false, "String", ""⟩,
        [("type", .str "array"), ("items", .obj [("type", .str "string")])]) := by
  refine ⟨?_, rfl, rfl, rfl⟩
  intro reg d
  refine ⟨_, rfl, ?_⟩
  split
  · rw [get_set_ne _ _ _ _ (by decide), JSON.set_nil]
    simp [JSON.get]
  · rw [JSON.set_nil]
    simp [JSON.get]

/-! ## Plain types, enums and unions -/

theorem foldl_symbols (l : List EnumElementDef) (acc : List String) :
    l.foldl (fun tmp el => tmp ++ [el.Symbol]) acc = acc ++ l.map (fun el => el.Symbol) := by
  induction l generalizing acc with
  | nil => simp
  | cons el rest ih => simp [List.foldl_cons, ih]

theorem jsTypeDef_StringTypeDef (reg : TypeRegistry) (d : StringTypeDef)
    (hb : reg.BaseType (some (.StringTypeDef d)) = .BaseTypeString) :
    jsTypeDef reg (.StringTypeDef d) = .ok (some (stringFragment d), .StringTypeDef d) := by
  obtain ⟨ty, name, comment, pattern, minSize, maxSize⟩ := d
  simp only [jsTypeDef, hb, stringFragment]
  cases maxSize <;> cases minSize <;> by_cases hp : pattern = "" <;> simp [hp, JSON.set]

theorem jsTypeDef_plain_nil (reg : TypeRegistry) (t : RdlType) (hplain : isPlain t = true)
    (hbt : reg.BaseType (some t) ∈
      [BaseType.BaseTypeInt16, .BaseTypeInt32, .BaseTypeInt64, .BaseTypeFloat32,
       .BaseTypeFloat64]) :
    jsTypeDef reg t = .ok (none, t) := by
  simp only [List.mem_cons, List.mem_singleton, List.not_mem_nil, or_false] at hbt
  cases t <;> simp only [isPlain, Bool.false_eq_true] at hplain <;>
    rcases hbt with hb | hb | hb | hb | hb <;> simp [jsTypeDef, hb]

theorem jsGenerateTypes_get_same (reg : TypeRegistry) (ts ts' : List RdlType) (defs defs' : Obj)
    (h : jsGenerateTypes reg ts defs = .ok (defs', ts')) (n : String) (r : Obj)
    (hall : ∀ u ∈ ts, (TypeInfo u).1 = n → ∃ u', jsTypeDef reg u = .ok (some r, u'))
    (hex : (∃ u ∈ ts, (TypeInfo u).1 = n) ∨ get defs n = some (.obj r)) :
    get defs' n = some (.obj r) := by
  induction ts generalizing ts' defs with
  | nil =>
    simp only [jsGenerateTypes, Except.ok.injEq, Prod.mk.injEq] at h
    rw [← h.1]
    rcases hex with ⟨u, hu, -⟩ | hget
    · cases hu
    · exact hget
  | cons t rest ih =>
    obtain ⟨ref, t', rest', ht, -, hrest⟩ := jsGenerateTypes_cons_ok reg t rest ts' defs defs' h
    have hall' : ∀ u ∈ rest, (TypeInfo u).1 = n → ∃ u', jsTypeDef reg u = .ok (some r, u') :=
      fun u hu hn => hall u (List.mem_cons_of_mem _ hu) hn
    by_cases hn : (TypeInfo t).1 = n
    · obtain ⟨u', hu'⟩ := hall t (List.mem_cons_self _ _) hn
      rw [ht] at hu'
      simp only [Except.ok.injEq, Prod.mk.injEq] at hu'
      obtain ⟨rfl, -⟩ := hu'
      refine ih _ _ hrest hall' (Or.inr ?_)
      simp only []
      rw [hn, get_set_self]
    · refine ih _ _ hrest hall' ?_
      rcases hex with ⟨u, hu, hun⟩ | hget
      · rcases List.mem_cons.mp hu with rfl | hu'
        · exact absurd hun hn
        · exact Or.inl ⟨u, hu', hun⟩
      · right
        cases ref with
        | none => exact hget
        | some q =>
          simp only []
          rw [get_set_ne _ _ _ _ (Ne.symm hn)]
          exact hget

theorem definitionsOf_document (defs : Obj) :
    definitionsOf [("$schema", .str "http://json-schema.org/draft-04/schema#"),
      ("definitions", .obj defs)] = defs := by
  simp [definitionsOf, JSON.get]

/-! ## What a run leaves behind -/

theorem fieldAfter_of_array (reg : TypeRegistry) (f : StructFieldDef) (ft : RdlType)
    (hft : reg.FindType f.Type_ = some ft) (hb : reg.BaseType (some ft) = .BaseTypeArray) :
    fieldAfter reg f = { f with Items := arrayElementOf f ft } := by
  unfold fieldAfter arrayElementOf
  rw [hft, hb]
  cases ft <;> by_cases hi : f.Items = "" <;> simp [hi]
  all_goals (rw [← hi])

theorem fieldAfter_of_not_array (reg : TypeRegistry) (f : StructFieldDef)
    (hb : reg.BaseType (reg.FindType f.Type_) ≠ .BaseTypeArray) : fieldAfter reg f = f := by
  unfold fieldAfter
  split
  · rename_i h₁ h₂
    exact absurd h₁ hb
  · rfl

theorem jsStructField_after (reg : TypeRegistry) (f f' : StructFieldDef) (p : Obj)
    (h : jsStructField reg f = .ok (f', p)) : f' = fieldAfter reg f := by
  cases hb : reg.BaseType (reg.FindType f.Type_)
  case BaseTypeArray =>
    cases hft : reg.FindType f.Type_ with
    | none =>
      rw [hft] at hb
      unfold jsStructField at h
      simp [hb, hft] at h
    | some ft =>
      rw [hft] at hb
      rw [jsStructField_array reg f ft hft hb] at h
      simp only [Except.ok.injEq, Prod.mk.injEq] at h
      rw [fieldAfter_of_array reg f ft hft hb]
      exact h.1.symm
  case BaseTypeString =>
    rw [fieldAfter_of_not_array reg f (by rw [hb]; decide)]
    cases hft : reg.FindType f.Type_ with
    | none =>
      rw [hft] at hb
      unfold jsStructField at h
      simp [hb, hft] at h
    | some ft =>
      rw [hft] at hb
      rw [jsStructField_string reg f ft hft hb] at h
      simp only [Except.ok.injEq, Prod.mk.injEq] at h
      exact h.1.symm
  case BaseTypeMap =>
    rw [fieldAfter_of_not_array reg f (by rw [hb]; decide)]
    rw [jsStructField_map reg f hb] at h
    simp only [Except.ok.injEq, Prod.mk.injEq] at h
    exact h.1.symm
  all_goals
    rw [fieldAfter_of_not_array reg f (by rw [hb]; decide)]
    unfold jsStructField at h
    simp only [hb, Except.ok.injEq, Prod.mk.injEq] at h
    exact h.1.symm

theorem jsStructFields_after (reg : TypeRegistry) (fs fs' : List StructFieldDef)
    (req req' : List String) (props props' : Obj)
    (h : jsStructFields reg fs req props = .ok (fs', req', props')) :
    fs' = fs.map (fieldAfter reg) := by
  induction fs generalizing fs' req props with
  | nil =>
    simp only [jsStructFields, Except.ok.injEq, Prod.mk.injEq] at h
    simp [← h.1]
  | cons f rest ih =>
    obtain ⟨f', p, rest', hf, rfl, hrest⟩ :=
      jsStructFields_cons_ok reg f rest fs' req req' props props' h
    rw [List.map_cons, ← ih _ _ _ hrest, jsStructField_after reg f f' p hf]

theorem jsTypeDef_after (reg : TypeRegistry) (t t' : RdlType) (r : Option Obj)
    (h : jsTypeDef reg t = .ok (r, t')) : t' = typeAfter reg t := by
  cases t with
  | StructTypeDef d =>
    rw [jsTypeDef_struct] at h
    split at h
    · cases h
    · rename_i fields required props hloop
      simp only [Except.ok.injEq, Prod.mk.injEq] at h
      rw [← h.2, jsStructFields_after reg d.Fields fields [] required [] props hloop]
      rfl
  | MapTypeDef d =>
    simp only [jsTypeDef, Except.ok.injEq, Prod.mk.injEq] at h
    exact h.2.symm
  | ArrayTypeDef d =>
    simp only [jsTypeDef, Except.ok.injEq, Prod.mk.injEq] at h
    exact h.2.symm
  | EnumTypeDef d =>
    simp only [jsTypeDef, Except.ok.injEq, Prod.mk.injEq] at h
    exact h.2.symm
  | UnionTypeDef d =>
    simp only [jsTypeDef, Except.ok.injEq, Prod.mk.injEq] at h
    exact h.2.symm
  | BaseType b =>
    simp only [jsTypeDef] at h
    split at h <;> cases h <;> rfl
  | StringTypeDef d =>
    simp only [jsTypeDef] at h
    split at h <;> cases h <;> rfl
  | AliasTypeDef d =>
    simp only [jsTypeDef] at h
    split at h <;> cases h <;> rfl

theorem jsGenerateTypes_after (reg : TypeRegistry) (ts ts' : List RdlType) (defs defs' : Obj)
    (h : jsGenerateTypes reg ts defs = .ok (defs', ts')) : ts' = ts.map (typeAfter reg) := by
  induction ts generalizing ts' defs with
  | nil =>
    simp only [jsGenerateTypes, Except.ok.injEq, Prod.mk.injEq] at h
    simp [← h.2]
  | cons t rest ih =>
    obtain ⟨ref, t', rest', ht, rfl, hrest⟩ := jsGenerateTypes_cons_ok reg t rest ts' defs defs' h
    rw [List.map_cons, ← ih _ _ hrest, jsTypeDef_after reg t t' ref ht]

/-! ## A second run -/

theorem typeAfter_TypeInfo (reg : TypeRegistry) (t : RdlType) :
    TypeInfo (typeAfter reg t) = TypeInfo t := by
  cases t <;> rfl

theorem arrayElementOf_after (reg : TypeRegistry) (f : StructFieldDef) (ft : RdlType) :
    arrayElementOf { f with Items := arrayElementOf f ft } (typeAfter reg ft)
      = arrayElementOf f ft := by
  unfold arrayElementOf
  cases ft <;> by_cases hi : f.Items = "" <;> simp [hi, typeAfter]

theorem jsStructField_again (reg reg' : TypeRegistry)
    (hF : ∀ ref, reg'.FindType ref = (reg.FindType ref).map (typeAfter reg))
    (hB : ∀ o, reg'.BaseType (o.map (typeAfter reg)) = reg.BaseType o)
    (f f' : StructFieldDef) (p : Obj) (h : jsStructField reg f = .ok (f', p)) :
    jsStructField reg' f' = .ok (f', p) := by
  have hty : f'.Type_ = f.Type_ := (jsStructField_frame reg f f' p h).2.1
  have hbt : reg'.BaseType (reg'.FindType f'.Type_) = reg.BaseType (reg.FindType f.Type_) := by
    rw [hty, hF, hB]
  cases hb : reg.BaseType (reg.FindType f.Type_)
  case BaseTypeArray =>
    cases hft : reg.FindType f.Type_ with
    | none =>
      rw [hft] at hb
      unfold jsStructField at h
      simp [hb, hft] at h
    | some ft =>
      rw [hft] at hb
      rw [jsStructField_array reg f ft hft hb] at h
      simp only [Except.ok.injEq, Prod.mk.injEq] at h
      obtain ⟨rfl, rfl⟩ := h
      have hft' : reg'.FindType f.Type_ = some (typeAfter reg ft) := by
        rw [hF, hft]
        rfl
      have hb' : reg'.BaseType (some (typeAfter reg ft)) = .BaseTypeArray := by
        have := hB (some ft)
        rw [hb] at this
        exact this
      have key := jsStructField_array reg' { f with Items := arrayElementOf f ft }
        (typeAfter reg ft) hft' hb'
      rw [key, arrayElementOf_after]
  case BaseTypeString =>
    cases hft : reg.FindType f.Type_ with
    | none =>
      rw [hft] at hb
      unfold jsStructField at h
      simp [hb, hft] at h
    | some ft =>
      rw [hft] at hb
      rw [jsStructField_string reg f ft hft hb] at h
      simp only [Except.ok.injEq, Prod.mk.injEq] at h
      obtain ⟨rfl, rfl⟩ := h
      have hft' : reg'.FindType f.Type_ = some (typeAfter reg ft) := by
        rw [hF, hft]
        rfl
      have hb' : reg'.BaseType (some (typeAfter reg ft)) = .BaseTypeString := by
        have := hB (some ft)
        rw [hb] at this
        exact this
      rw [jsStructField_string reg' f (typeAfter reg ft) hft' hb']
      cases ft <;> rfl
  case BaseTypeMap =>
    rw [jsStructField_map reg f hb] at h
    simp only [Except.ok.injEq, Prod.mk.injEq] at h
    obtain ⟨rfl, rfl⟩ := h
    rw [hb] at hbt
    exact jsStructField_map reg' f hbt
  all_goals
    rw [hb] at hbt
    unfold jsStructField at h ⊢
    simp only [hb, Except.ok.injEq, Prod.mk.injEq] at h
    obtain ⟨rfl, rfl⟩ := h
    simp only [hbt]

theorem jsStructFields_again (reg reg' : TypeRegistry)
    (hF : ∀ ref, reg'.FindType ref = (reg.FindType ref).map (typeAfter reg))
    (hB : ∀ o, reg'.BaseType (o.map (typeAfter reg)) = reg.BaseType o)
    (fs fs' : List StructFieldDef) (req req' : List String) (props props' : Obj)
    (h : jsStructFields reg fs req props = .ok (fs', req', props')) :
    jsStructFields reg' fs' req props = .ok (fs', req', props') := by
  induction fs generalizing fs' req props with
  | nil =>
    simp only [jsStructFields, Except.ok.injEq, Prod.mk.injEq] at h
    obtain ⟨rfl, rfl, rfl⟩ := h
    rfl
  | cons f rest ih =>
    obtain ⟨f', p, rest', hf, rfl, hrest⟩ :=
      jsStructFields_cons_ok reg f rest fs' req req' props props' h
    have hframe := jsStructField_frame reg f f' p hf
    have hf' := jsStructField_again reg reg' hF hB f f' p hf
    have hrest' := ih _ _ _ hrest
    have hself : jsStructField reg' f' = .ok (f', p) := hf'
    simp only [jsStructFields, hself, hframe.2.2.1, hframe.1]
    rw [hframe.1] at hrest'
    simp only [hrest']

theorem jsTypeDef_again (reg reg' : TypeRegistry)
    (hF : ∀ ref, reg'.FindType ref = (reg.FindType ref).map (typeAfter reg))
    (hB : ∀ o, reg'.BaseType (o.map (typeAfter reg)) = reg.BaseType o)
    (hFB : ∀ ref, reg'.FindBaseType ref = reg.FindBaseType ref)
    (t t' : RdlType) (r : Option Obj) (h : jsTypeDef reg t = .ok (r, t')) :
    jsTypeDef reg' t' = .ok (r, t') := by
  have hbt : reg'.BaseType (some (typeAfter reg t)) = reg.BaseType (some t) := hB (some t)
  cases t with
  | StructTypeDef d =>
    rw [jsTypeDef_struct] at h
    split at h
    · cases h
    · rename_i fields required props hloop
      simp only [Except.ok.injEq, Prod.mk.injEq] at h
      obtain ⟨rfl, rfl⟩ := h
      have hloop' := jsStructFields_again reg reg' hF hB d.Fields fields [] required [] props hloop
      rw [jsTypeDef_struct]
      simp only [hloop']
  | MapTypeDef d =>
    simp only [jsTypeDef, Except.ok.injEq, Prod.mk.injEq] at h
    obtain ⟨rfl, rfl⟩ := h
    simp only [jsTypeDef, hFB]
  | ArrayTypeDef d =>
    have hbt' : reg'.BaseType (some (.ArrayTypeDef d)) = reg.BaseType (some (.ArrayTypeDef d)) :=
      hbt
    simp only [jsTypeDef, Except.ok.injEq, Prod.mk.injEq] at h
    obtain ⟨rfl, rfl⟩ := h
    simp only [jsTypeDef, hFB, hbt']
  | EnumTypeDef d =>
    simp only [jsTypeDef, Except.ok.injEq, Prod.mk.injEq] at h
    obtain ⟨rfl, rfl⟩ := h
    simp only [jsTypeDef]
  | UnionTypeDef d =>
    simp only [jsTypeDef, Except.ok.injEq, Prod.mk.injEq] at h
    obtain ⟨rfl, rfl⟩ := h
    simp only [jsTypeDef]
  | BaseType b =>
    have hbt' : reg'.BaseType (some (.BaseType b)) = reg.BaseType (some (.BaseType b)) := hbt
    have ht' := jsTypeDef_after reg _ t' r h
    subst ht'
    rw [← h]
    simp only [jsTypeDef, typeAfter, hbt']
  | StringTypeDef d =>
    have hbt' : reg'.BaseType (some (.StringTypeDef d)) = reg.BaseType (some (.StringTypeDef d)) :=
      hbt
    have ht' := jsTypeDef_after reg _ t' r h
    subst ht'
    rw [← h]
    simp only [jsTypeDef, typeAfter, hbt']
  | AliasTypeDef d =>
    have hbt' : reg'.BaseType (some (.AliasTypeDef d)) = reg.BaseType (some (.AliasTypeDef d)) :=
      hbt
    have ht' := jsTypeDef_after reg _ t' r h
    subst ht'
    rw [← h]
    simp only [jsTypeDef, typeAfter, hbt']

theorem jsGenerateTypes_again (reg reg' : TypeRegistry)
    (hF : ∀ ref, reg'.FindType ref = (reg.FindType ref).map (typeAfter reg))
    (hB : ∀ o, reg'.BaseType (o.map (typeAfter reg)) = reg.BaseType o)
    (hFB : ∀ ref, reg'.FindBaseType ref = reg.FindBaseType ref)
    (ts ts' : List RdlType) (defs defs' : Obj)
    (h : jsGenerateTypes reg ts defs = .ok (defs', ts')) :
    jsGenerateTypes reg' ts' defs = .ok (defs', ts') := by
  induction ts generalizing ts' defs with
  | nil =>
    simp only [jsGenerateTypes, Except.ok.injEq, Prod.mk.injEq] at h
    obtain ⟨rfl, rfl⟩ := h
    rfl
  | cons t rest ih =>
    obtain ⟨ref, t', rest', ht, rfl, hrest⟩ := jsGenerateTypes_cons_ok reg t rest ts' defs defs' h
    have ht' := jsTypeDef_again reg reg' hF hB hFB t t' ref ht
    have hinfo := jsTypeDef_TypeInfo reg t t' ref ht
    have hrest' := ih _ _ hrest
    rw [← hinfo] at hrest'
    cases ref with
    | none => simp only [jsGenerateTypes, ht', hrest']
    | some q => simp only [jsGenerateTypes, ht', hrest']

/-! ## The modelled registry -/

theorem findType_map (reg : TypeRegistry) (types : List RdlType) (ref : TypeRef) :
    findType (types.map (typeAfter reg)) ref = (findType types ref).map (typeAfter reg) := by
  unfold findType
  have hp : ((fun t => decide ((TypeInfo t).1 = ref)) ∘ typeAfter reg)
      = (fun t => decide ((TypeInfo t).1 = ref)) := by
    funext t
    simp [typeAfter_TypeInfo]
  rw [List.find?_map, hp]
  cases types.find? (fun t => decide ((TypeInfo t).1 = ref)) with
  | some t => rfl
  | none =>
    cases baseTypeByName ref with
    | none => rfl
    | some b => rfl

theorem baseTypeOf_map (reg : TypeRegistry) (types : List RdlType) (fuel : Nat)
    (o : Option RdlType) :
    baseTypeOf (types.map (typeAfter reg)) fuel (o.map (typeAfter reg))
      = baseTypeOf types fuel o := by
  induction fuel generalizing o with
  | zero =>
    cases o with
    | none => rfl
    | some t => cases t <;> rfl
  | succ n ih =>
    cases o with
    | none => rfl
    | some t =>
      cases t with
      | BaseType b => rfl
      | _ =>
        simp only [Option.map_some', typeAfter, baseTypeOf, TypeInfo]
        rw [findType_map, ih]

theorem NewTypeRegistry_stable (schema : Schema) : RegistryStable NewTypeRegistry schema := by
  refine ⟨?_, ?_, ?_⟩
  · intro ref
    exact findType_map _ _ _
  · intro o
    simp only [NewTypeRegistry, List.length_map]
    exact baseTypeOf_map _ _ _ _
  · intro ref
    simp only [NewTypeRegistry, List.length_map]
    rw [findType_map]
    exact baseTypeOf_map _ _ _ _

/-! ## The order of the keys in the serialized document -/

theorem keys_set_of_not_mem (m : Obj) (k : String) (v : JSON) (hk : k ∉ keys m) :
    keys (JSON.set m k v) = keys m ++ [k] := by
  rw [set_of_not_mem m k v hk]
  simp [keys]

theorem jsStructFields_keys (reg : TypeRegistry) (fs fs' : List StructFieldDef)
    (req req' : List String) (props props' : Obj)
    (h : jsStructFields reg fs req props = .ok (fs', req', props'))
    (hnd : (fs.map (fun f => f.Name)).Nodup)
    (hdisj : ∀ f ∈ fs, f.Name ∉ keys props) :
    keys props' = keys props ++ fs.map (fun f => f.Name) := by
  induction fs generalizing fs' req props with
  | nil =>
    simp only [jsStructFields, Except.ok.injEq, Prod.mk.injEq] at h
    simp [← h.2.2]
  | cons f rest ih =>
    obtain ⟨f', p, rest', hf, -, hrest⟩ :=
      jsStructFields_cons_ok reg f rest fs' req req' props props' h
    have hname := (jsStructField_frame reg f f' p hf).1
    simp only [List.map_cons, List.nodup_cons] at hnd
    have hfresh : f.Name ∉ keys props := hdisj f (List.mem_cons_self _ _)
    have hkeys : keys (JSON.set props f'.Name (.obj p)) = keys props ++ [f.Name] := by
      rw [hname]
      exact keys_set_of_not_mem _ _ _ hfresh
    rw [ih _ _ _ hrest hnd.2, hkeys]
    · simp
    · intro g hg
      rw [hkeys]
      simp only [List.mem_append, List.mem_singleton, not_or]
      refine ⟨hdisj g (List.mem_cons_of_mem _ hg), ?_⟩
      intro heq
      exact hnd.1 (List.mem_map.mpr ⟨g, hg, heq⟩)

theorem charsLe_total (a b : List Char) : json.charsLe a b = true ∨ json.charsLe b a = true := by
  induction a generalizing b with
  | nil => exact Or.inl (by simp [json.charsLe])
  | cons x xs ih =>
    cases b with
    | nil => exact Or.inr (by simp [json.charsLe])
    | cons y ys =>
      simp only [json.charsLe]
      by_cases h₁ : x.toNat < y.toNat
      · simp [h₁]
      · by_cases h₂ : y.toNat < x.toNat
        · simp [h₂]
        · simp only [h₁, h₂, if_false]
          exact ih ys

theorem charsLe_trans (a b c : List Char) (hab : json.charsLe a b = true)
    (hbc : json.charsLe b c = true) : json.charsLe a c = true := by
  induction a generalizing b c with
  | nil => simp [json.charsLe]
  | cons x xs ih =>
    cases b with
    | nil => simp [json.charsLe] at hab
    | cons y ys =>
      cases c with
      | nil => simp [json.charsLe] at hbc
      | cons z zs =>
        simp only [json.charsLe] at hab hbc ⊢
        by_cases h₁ : x.toNat < y.toNat
        · by_cases h₂ : y.toNat < z.toNat
          · have : x.toNat < z.toNat := by omega
            simp [this]
          · by_cases h₃ : z.toNat < y.toNat
            · simp [h₂, h₃] at hbc
            · have : x.toNat < z.toNat := by omega
              simp [this]
        · by_cases h₂ : y.toNat < x.toNat
          · simp [h₁, h₂] at hab
          · simp only [h₁, h₂, if_false] at hab
            by_cases h₃ : y.toNat < z.toNat
            · have : x.toNat < z.toNat := by omega
              simp [this]
            · by_cases h₄ : z.toNat < y.toNat
              · simp [h₃, h₄] at hbc
              · simp only [h₃, h₄, if_false] at hbc
                have h₅ : ¬ x.toNat < z.toNat := by omega
                have h₆ : ¬ z.toNat < x.toNat := by omega
                simp only [h₅, h₆, if_false]
                exact ih ys zs hab hbc

theorem keyLe_sorted (l : List String) : (l.insertionSort json.keyLe).Sorted json.keyLe := by
  haveI : IsTotal String json.keyLe := ⟨fun a b => charsLe_total a.data b.data⟩
  haveI : IsTrans String json.keyLe := ⟨fun a b c => charsLe_trans a.data b.data c.data⟩
  exact List.sorted_insertionSort json.keyLe l

theorem jsTypeDef_struct_keys (reg : TypeRegistry) (d : StructTypeDef)
    (hres : ∀ f ∈ d.Fields, (reg.FindType f.Type_).isSome = true)
    (hnd : (d.Fields.map (fun f => f.Name)).Nodup) :
    ∃ st t' props, jsTypeDef reg (.StructTypeDef d) = .ok (some st, t') ∧
      get st "properties" = some (.obj props) ∧ keys props = d.Fields.map (fun f => f.Name) := by
  obtain ⟨fields, props, hloop, hdef⟩ := jsTypeDef_struct_ok reg d hres
  refine ⟨_, _, props, hdef, get_struct_fragment _ _ _, ?_⟩
  have := jsStructFields_keys reg d.Fields fields [] _ [] props hloop hnd
    (fun f _ => by simp [keys])
  simpa [keys] using this

/-! ## Claims, continued -/

/-- C11: for every enum type the `jsTypeDef` fragment is exactly the one entry
`enum`, holding the symbols of the elements in declared order, as many as there
are elements; `RED, GREEN, BLUE` gives `["RED","GREEN","BLUE"]`. -/
theorem jsTypeDef_enum :
    (∀ (reg : TypeRegistry) (d : EnumTypeDef),
      jsTypeDef reg (.EnumTypeDef d) =
        .ok (some [("enum", .strs (d.Elements.map (fun el => el.Symbol)))], .EnumTypeDef d) ∧
      (d.Elements.map (fun el => el.Symbol)).length = d.Elements.length) ∧
    (∀ reg : TypeRegistry, jsTypeDef reg (.EnumTypeDef Example.color) =
      .ok (some [("enum", .strs ["RED", "GREEN", "BLUE"])], .EnumTypeDef Example.color)) := by
  have key : ∀ (reg : TypeRegistry) (d : EnumTypeDef),
      jsTypeDef reg (.EnumTypeDef d) =
        .ok (some [("enum", .strs (d.Elements.map (fun el => el.Symbol)))], .EnumTypeDef d) := by
    intro reg d
    simp [jsTypeDef, foldl_symbols, JSON.set_nil]
  exact ⟨fun reg d => ⟨key reg d, by simp⟩, fun reg => key reg Example.color⟩

/-- C12 (as stated, refuted): `Example.label` is a string type of base type
String that sets none of `MaxSize`, `MinSize` and `Pattern`; `jsTypeDef` does
not return nil for it but the fragment `"type":"string"`. -/
theorem jsTypeDef_string_type_without_constraints :
    (NewTypeRegistry Example.labels).BaseType (some Example.label) = .BaseTypeString ∧
    isPlain Example.label = true ∧
    jsTypeDef (NewTypeRegistry Example.labels) Example.label =
      .ok (some [("type", .str "string")], Example.label) := by
  refine ⟨rfl, rfl, rfl⟩

/-- C12 (amended): for a plain type of base type String, `jsTypeDef` returns nil
exactly when the type carries no string type payload; when it carries one, the
fragment is `"type":"string"`, then `maxLength` = `MaxSize` iff `MaxSize` is
set, `minLength` = `MinSize` iff `MinSize` is set, `pattern` = `Pattern` iff
`Pattern` is non-empty, and no other key (so a payload that sets none of the
three gives `"type":"string"` alone). -/
theorem jsTypeDef_string_alias (reg : TypeRegistry) (t : RdlType)
    (hplain : isPlain t = true) (hb : reg.BaseType (some t) = .BaseTypeString) :
    (∀ d, t = .StringTypeDef d →
      jsTypeDef reg t = .ok (some (stringFragment d), t) ∧
      get (stringFragment d) "type" = some (.str "string") ∧
      get (stringFragment d) "maxLength" = d.MaxSize.map JSON.num ∧
      get (stringFragment d) "minLength" = d.MinSize.map JSON.num ∧
      get (stringFragment d) "pattern" =
        (if d.Pattern = "" then none else some (.str d.Pattern)) ∧
      ∀ k ∈ keys (stringFragment d), k ∈ ["type", "maxLength", "minLength", "pattern"]) ∧
    ((∀ d, t ≠ .StringTypeDef d) → jsTypeDef reg t = .ok (none, t)) := by
  constructor
  · rintro d rfl
    refine ⟨jsTypeDef_StringTypeDef reg d hb, ?_, ?_, ?_, ?_, ?_⟩
    all_goals
      obtain ⟨ty, name, comment, pattern, minSize, maxSize⟩ := d
      cases maxSize <;> cases minSize <;> by_cases hp : pattern = "" <;>
        simp [stringFragment, hp, JSON.get, keys]
  · intro hns
    cases t with
    | StringTypeDef d => exact absurd rfl (hns d)
    | BaseType b => simp [jsTypeDef, hb]
    | AliasTypeDef d => simp [jsTypeDef, hb]
    | _ => simp [isPlain] at hplain

/-- C12 (amended), at `Example.hostname` (section 8, scenario 3). -/
theorem jsTypeDef_string_alias_hostname :
    stringFragment ⟨"String", "Hostname", "", "[a-z.]+", none, some 255⟩ =
      [("type", .str "string"), ("maxLength", .num 255), ("pattern", .str "[a-z.]+")] ∧
    (∀ d, Example.hostname = .StringTypeDef d →
      jsTypeDef (NewTypeRegistry Example.labels) Example.hostname =
        .ok (some (stringFragment d), Example.hostname) ∧
      get (stringFragment d) "type" = some (.str "string") ∧
      get (stringFragment d) "maxLength" = d.MaxSize.map JSON.num ∧
      get (stringFragment d) "minLength" = d.MinSize.map JSON.num ∧
      get (stringFragment d) "pattern" =
        (if d.Pattern = "" then none else some (.str d.Pattern)) ∧
      ∀ k ∈ keys (stringFragment d), k ∈ ["type", "maxLength", "minLength", "pattern"]) :=
  ⟨rfl, (jsTypeDef_string_alias (NewTypeRegistry Example.labels) Example.hostname rfl rfl).1⟩

/-- C13 (as stated, refuted): `Example.tiny` is a plain alias of base type Int8;
`jsTypeDef` does not return nil for it but fails, and so does `jsGenerate`. -/
theorem jsTypeDef_int8_alias_fails :
    isPlain Example.tiny = true ∧
    (NewTypeRegistry Example.tinies).BaseType (some Example.tiny) = .BaseTypeInt8 ∧
    jsTypeDef (NewTypeRegistry Example.tinies) Example.tiny = .error "whoops" ∧
    jsGenerate NewTypeRegistry Example.tinies "" = .error "whoops" := by
  refine ⟨rfl, rfl, rfl, rfl⟩

/-- C13 (amended): for every plain type whose base type is Int16, Int32, Int64,
Float32 or Float64, `jsTypeDef` returns nil; and when the type is declared in a
schema in which no other type has its name, and `jsTypeDef` returns on every
type of the schema, the document of `jsGenerate` has no entry under its name in
`definitions`. -/
theorem jsTypeDef_numeric_alias (newReg : Schema → TypeRegistry) (schema : Schema)
    (basePath : String) (t : RdlType) (hplain : isPlain t = true)
    (hbt : (newReg schema).BaseType (some t) ∈
      [BaseType.BaseTypeInt16, .BaseTypeInt32, .BaseTypeInt64, .BaseTypeFloat32,
       .BaseTypeFloat64])
    (huniq : ∀ u ∈ schema.Types, (TypeInfo u).1 = (TypeInfo t).1 → u = t)
    (hok : ∀ u ∈ schema.Types, ∃ r, jsTypeDef (newReg schema) u = .ok r) :
    jsTypeDef (newReg schema) t = .ok (none, t) ∧
    ∃ js schema', jsGenerate newReg schema basePath = .ok (js, schema') ∧
      (TypeInfo t).1 ∉ keys (definitionsOf js) := by
  have hnil := jsTypeDef_plain_nil (newReg schema) t hplain hbt
  refine ⟨hnil, ?_⟩
  by_cases hne : schema.Types = []
  · refine ⟨_, _, jsGenerate_empty newReg schema basePath hne, ?_⟩
    simp [definitionsOf, JSON.get, keys]
  · obtain ⟨defs, types, hloop, hgen⟩ := jsGenerate_nonempty newReg schema basePath hne hok
    refine ⟨_, _, hgen, ?_⟩
    rw [definitionsOf_document, jsGenerateTypes_keys _ _ _ _ _ hloop]
    rintro (h | ⟨u, hu, hname, r, u', hur⟩)
    · simp [keys] at h
    · rw [huniq u hu hname, hnil] at hur
      simp at hur

/-- C13 (amended), at the alias `Age` of Int32 in `Example.numbers`. -/
theorem jsTypeDef_numeric_alias_age :
    jsTypeDef (NewTypeRegistry Example.numbers) Example.age = .ok (none, Example.age) ∧
    ∃ js schema', jsGenerate NewTypeRegistry Example.numbers "" = .ok (js, schema') ∧
      "Age" ∉ keys (definitionsOf js) :=
  jsTypeDef_numeric_alias NewTypeRegistry Example.numbers "" Example.age rfl (by decide)
    (by
      intro u hu hname
      simp only [Example.numbers, List.mem_cons, List.mem_singleton, List.not_mem_nil,
        or_false] at hu
      rcases hu with rfl | rfl
      · rfl
      · exact absurd hname (by decide))
    (by
      intro u hu
      simp only [Example.numbers, List.mem_cons, List.mem_singleton, List.not_mem_nil,
        or_false] at hu
      rcases hu with rfl | rfl <;> exact ⟨_, rfl⟩)

/-- C14 (as stated, refuted): the schema `Example.shapes` declares the union
`Shape` and no other type; `jsTypeDef` returns the empty map for it, which is
not nil, and the document has the key `Shape` under `definitions`. -/
theorem jsGenerate_union_definition :
    jsTypeDef (NewTypeRegistry Example.shapes) (.UnionTypeDef Example.shape) =
      .ok (some [], .UnionTypeDef Example.shape) ∧
    jsGenerate NewTypeRegistry Example.shapes "" =
      .ok ([("$schema", .str "http://json-schema.org/draft-04/schema#"),
            ("definitions", .obj [("Shape", .obj [])])], Example.shapes) ∧
    "Shape" ∈ keys [("Shape", JSON.obj [])] := by
  refine ⟨rfl, rfl, by decide⟩

/-- C14 (amended): a union type contributes an empty definition. For every
schema that declares a union named U and no other type named U, and on whose
types `jsTypeDef` returns, the `definitions` object of the document of
`jsGenerate` holds the empty object under the key U. -/
theorem jsGenerate_union_empty_definition (newReg : Schema → TypeRegistry) (schema : Schema)
    (basePath : String) (d : UnionTypeDef) (hmem : RdlType.UnionTypeDef d ∈ schema.Types)
    (huniq : ∀ u ∈ schema.Types, (TypeInfo u).1 = d.Name → u = .UnionTypeDef d)
    (hok : ∀ u ∈ schema.Types, ∃ r, jsTypeDef (newReg schema) u = .ok r) :
    ∃ js schema', jsGenerate newReg schema basePath = .ok (js, schema') ∧
      get (definitionsOf js) d.Name = some (.obj []) := by
  have hne : schema.Types ≠ [] := List.ne_nil_of_mem hmem
  obtain ⟨defs, types, hloop, hgen⟩ := jsGenerate_nonempty newReg schema basePath hne hok
  refine ⟨_, _, hgen, ?_⟩
  rw [definitionsOf_document]
  refine jsGenerateTypes_get_same _ _ _ _ _ hloop d.Name [] ?_ (Or.inl ⟨_, hmem, rfl⟩)
  intro u hu hname
  rw [huniq u hu hname]
  exact ⟨_, rfl⟩

/-- C14 (amended), at `Example.shapes`. -/
theorem jsGenerate_union_empty_definition_shapes :
    ∃ js schema', jsGenerate NewTypeRegistry Example.shapes "" = .ok (js, schema') ∧
      get (definitionsOf js) "Shape" = some (.obj []) :=
  jsGenerate_union_empty_definition NewTypeRegistry Example.shapes "" Example.shape
    (by decide)
    (by
      intro u hu _
      simp only [Example.shapes, List.mem_singleton] at hu
      exact hu)
    (by
      intro u hu
      simp only [Example.shapes, List.mem_singleton] at hu
      subst hu
      exact ⟨_, rfl⟩)

/-- C15 (as stated, refuted): the field `entries` of `Example.directory` has the
declared type `Names`, an array type, and an empty items reference. After
`jsTypeDef` returns, the items reference of the field is `String`: the struct
is not equal to its value before the call. -/
theorem jsTypeDef_fills_items :
    jsTypeDef (NewTypeRegistry Example.directories) (.StructTypeDef Example.directory) =
      .ok (some Example.directoryFragment, .StructTypeDef Example.directoryAfter) ∧
    Example.directory.Fields.map (fun f => f.Items) = [""] ∧
    Example.directoryAfter.Fields.map (fun f => f.Items) = ["String"] ∧
    RdlType.StructTypeDef Example.directoryAfter ≠ .StructTypeDef Example.directory := by
  refine ⟨rfl, rfl, rfl, by decide⟩

/-- C15 (amended): when `jsTypeDef` returns, the type is left as `typeAfter`
describes: a type that is not a struct is unchanged, and in a struct the name,
declared type, optional flag and comment of every field are unchanged, and the
items reference is unchanged unless it is empty and the declared type of the
field is an array type of base type Array, in which case it has become the
element type of that array type. -/
theorem jsTypeDef_leaves (reg : TypeRegistry) (t t' : RdlType) (r : Option Obj)
    (h : jsTypeDef reg t = .ok (r, t')) :
    t' = typeAfter reg t ∧
    ((∀ d, t ≠ .StructTypeDef d) → t' = t) ∧
    (∀ f, (fieldAfter reg f).Name = f.Name ∧ (fieldAfter reg f).Type_ = f.Type_ ∧
      (fieldAfter reg f).Optional = f.Optional ∧ (fieldAfter reg f).Comment = f.Comment) ∧
    (∀ f, f.Items ≠ "" → fieldAfter reg f = f) ∧
    (∀ f, (∀ a, reg.FindType f.Type_ ≠ some (.ArrayTypeDef a)) → fieldAfter reg f = f) ∧
    (∀ f a, f.Items = "" → reg.FindType f.Type_ = some (.ArrayTypeDef a) →
      reg.BaseType (some (.ArrayTypeDef a)) = .BaseTypeArray →
      fieldAfter reg f = { f with Items := a.Items }) := by
  have hafter := jsTypeDef_after reg t t' r h
  refine ⟨hafter, ?_, ?_, ?_, ?_, ?_⟩
  · intro hns
    rw [hafter]
    cases t with
    | StructTypeDef d => exact absurd rfl (hns d)
    | _ => rfl
  · intro f
    unfold fieldAfter
    split
    · split <;> simp
    · simp
  · intro f hne
    unfold fieldAfter
    split
    · simp [hne]
    · rfl
  · intro f hna
    unfold fieldAfter
    split
    · rename_i a _ hft
      exact absurd hft (hna a)
    · rfl
  · intro f a hi hft hb
    unfold fieldAfter
    rw [hft, hb]
    simp [hi]

/-- C15 (amended), at `Example.directory`. -/
theorem jsTypeDef_leaves_directory :
    RdlType.StructTypeDef Example.directoryAfter =
      typeAfter (NewTypeRegistry Example.directories) (.StructTypeDef Example.directory) ∧
    ((∀ d, RdlType.StructTypeDef Example.directory ≠ .StructTypeDef d) →
      RdlType.StructTypeDef Example.directoryAfter = .StructTypeDef Example.directory) ∧
    (∀ f, (fieldAfter (NewTypeRegistry Example.directories) f).Name = f.Name ∧
      (fieldAfter (NewTypeRegistry Example.directories) f).Type_ = f.Type_ ∧
      (fieldAfter (NewTypeRegistry Example.directories) f).Optional = f.Optional ∧
      (fieldAfter (NewTypeRegistry Example.directories) f).Comment = f.Comment) ∧
    (∀ f, f.Items ≠ "" → fieldAfter (NewTypeRegistry Example.directories) f = f) ∧
    (∀ f, (∀ a, (NewTypeRegistry Example.directories).FindType f.Type_
        ≠ some (.ArrayTypeDef a)) →
      fieldAfter (NewTypeRegistry Example.directories) f = f) ∧
    (∀ f a, f.Items = "" →
      (NewTypeRegistry Example.directories).FindType f.Type_ = some (.ArrayTypeDef a) →
      (NewTypeRegistry Example.directories).BaseType (some (.ArrayTypeDef a))
        = .BaseTypeArray →
      fieldAfter (NewTypeRegistry Example.directories) f = { f with Items := a.Items }) :=
  jsTypeDef_leaves (NewTypeRegistry Example.directories) (.StructTypeDef Example.directory)
    (.StructTypeDef Example.directoryAfter) (some Example.directoryFragment) rfl

/-- C16: for a registry that reads nothing of the items references of struct
fields, whenever `jsGenerate` returns a document and leaves the schema in some
state, `jsGenerate` on the schema in that state returns the same document and
leaves the schema in that same state. -/
theorem jsGenerate_idempotent (newReg : Schema → TypeRegistry) (schema schema' : Schema)
    (basePath : String) (js : Obj) (hstable : RegistryStable newReg schema)
    (h : jsGenerate newReg schema basePath = .ok (js, schema')) :
    jsGenerate newReg schema' basePath = .ok (js, schema') := by
  by_cases hne : schema.Types = []
  · rw [jsGenerate_empty newReg schema basePath hne] at h
    simp only [Except.ok.injEq, Prod.mk.injEq] at h
    obtain ⟨rfl, rfl⟩ := h
    exact jsGenerate_empty newReg schema basePath hne
  · have hlen : schema.Types.length > 0 := List.length_pos.mpr hne
    unfold jsGenerate at h
    simp only [hlen, if_true] at h
    split at h
    · cases h
    · rename_i defs types hloop
      simp only [Except.ok.injEq, Prod.mk.injEq] at h
      obtain ⟨rfl, rfl⟩ := h
      have htypes := jsGenerateTypes_after _ _ _ _ _ hloop
      subst htypes
      obtain ⟨hF, hB, hFB⟩ := hstable
      have hloop' := jsGenerateTypes_again (newReg schema) _ hF hB hFB _ _ _ _ hloop
      have hlen' : (schema.Types.map (typeAfter (newReg schema))).length > 0 := by
        simpa using hlen
      unfold jsGenerate
      simp only [hlen', if_true, hloop']

/-- C16, at `Example.directories`: the first run fills in the items reference
of `entries`; the second run, on the schema so changed, returns the same
document. -/
theorem jsGenerate_idempotent_directories :
    jsGenerate NewTypeRegistry Example.directories "" =
      .ok (Example.directoriesDocument, Example.directoriesAfter) ∧
    jsGenerate NewTypeRegistry Example.directoriesAfter "" =
      .ok (Example.directoriesDocument, Example.directoriesAfter) :=
  ⟨rfl,
   jsGenerate_idempotent NewTypeRegistry Example.directories Example.directoriesAfter ""
    Example.directoriesDocument (NewTypeRegistry_stable Example.directories) rfl⟩

/-- C17 (as stated, refuted): the fields of `Example.member` are declared in the
order `name`, `age`; the serialized document lists the keys of `properties` in
the order `age`, `name`. -/
theorem jsTypeDef_properties_sorted_member :
    Example.member.Fields.map (fun f => f.Name) = ["name", "age"] ∧
    jsTypeDef (NewTypeRegistry Example.members) (.StructTypeDef Example.member) =
      .ok (some [("properties", .obj
                   [("name", .obj [("type", .str "string")]),
                    ("age", .obj [("type", .str "integer")])]),
                 ("required", .strs ["name", "age"])],
        .StructTypeDef Example.member) ∧
    json.mapKeyOrder [("name", JSON.obj [("type", .str "string")]),
      ("age", JSON.obj [("type", .str "integer")])] = ["age", "name"] := by
  refine ⟨rfl, rfl, rfl⟩

/-- C17 (amended): for a struct with distinct field names whose field types the
registry finds, the keys of `properties`, in the order the serialized document
lists them, are the field names sorted in ascending string order: a
rearrangement of the field names, equal to the declaration order if and only if
the fields are declared in ascending order of their names. -/
theorem jsTypeDef_properties_order (reg : TypeRegistry) (d : StructTypeDef)
    (hres : ∀ f ∈ d.Fields, (reg.FindType f.Type_).isSome = true)
    (hnd : (d.Fields.map (fun f => f.Name)).Nodup) :
    ∃ st t' props, jsTypeDef reg (.StructTypeDef d) = .ok (some st, t') ∧
      get st "properties" = some (.obj props) ∧
      json.mapKeyOrder props = (d.Fields.map (fun f => f.Name)).insertionSort json.keyLe ∧
      (json.mapKeyOrder props).Sorted json.keyLe ∧
      (json.mapKeyOrder props).Perm (d.Fields.map (fun f => f.Name)) ∧
      (json.mapKeyOrder props = d.Fields.map (fun f => f.Name) ↔
        (d.Fields.map (fun f => f.Name)).Sorted json.keyLe) := by
  obtain ⟨st, t', props, hdef, hprops, hkeys⟩ := jsTypeDef_struct_keys reg d hres hnd
  have horder : json.mapKeyOrder props
      = (d.Fields.map (fun f => f.Name)).insertionSort json.keyLe := by
    unfold json.mapKeyOrder
    rw [hkeys]
  refine ⟨st, t', props, hdef, hprops, horder, ?_, ?_, ?_⟩
  · rw [horder]
    exact keyLe_sorted _
  · rw [horder]
    exact List.perm_insertionSort _ _
  · rw [horder]
    constructor
    · intro heq
      rw [← heq]
      exact keyLe_sorted _
    · intro hs
      exact List.Sorted.insertionSort_eq hs

/-- C17 (amended), at `Example.member`. -/
theorem jsTypeDef_properties_order_member :
    ∃ st t' props,
      jsTypeDef (NewTypeRegistry Example.members) (.StructTypeDef Example.member)
        = .ok (some st, t') ∧
      get st "properties" = some (.obj props) ∧
      json.mapKeyOrder props
        = (Example.member.Fields.map (fun f => f.Name)).insertionSort json.keyLe ∧
      (json.mapKeyOrder props).Sorted json.keyLe ∧
      (json.mapKeyOrder props).Perm (Example.member.Fields.map (fun f => f.Name)) ∧
      (json.mapKeyOrder props = Example.member.Fields.map (fun f => f.Name) ↔
        (Example.member.Fields.map (fun f => f.Name)).Sorted json.keyLe) :=
  jsTypeDef_properties_order (NewTypeRegistry Example.members) Example.member
    (by decide) (by decide)

/-- C18 (as stated, refuted): the field `depth` of `Example.pixel` has the
declared type `Int8`, of base type Int8; the property emitted for it is its
description and `"type":"_Int8_"`, not `"type":"string","format":"byte"`. The
pair `string`, `byte` is what `jsTypeRef` returns for `Int8`, and `jsTypeDef`
does not call `jsTypeRef`. -/
theorem jsTypeDef_int8_field_sentinel :
    (NewTypeRegistry Example.pixels).BaseType ((NewTypeRegistry Example.pixels).FindType "Int8")
      = .BaseTypeInt8 ∧
    jsTypeDef (NewTypeRegistry Example.pixels) (.StructTypeDef Example.pixel) =
      .ok (some [("properties", .obj
                   [("depth", .obj [("description", .str "bits"), ("type", .str "_Int8_")])]),
                 ("required", .strs ["depth"])],
        .StructTypeDef Example.pixel) ∧
    jsTypeRef (NewTypeRegistry Example.pixels) "Int8" = ("string", "byte", none) := by
  refine ⟨rfl, rfl, rfl⟩

/-- C18 (amended): in a struct with distinct field names whose field types the
registry finds, a field whose declared type has base type Int8 is emitted,
under its name in `properties`, as the `description` entry of its comment (when
non-empty) followed by `"type":"_<declared type name>_"`, the marker of the
default case, with no `format` key. -/
theorem jsTypeDef_int8_field (reg : TypeRegistry) (d : StructTypeDef) (f : StructFieldDef)
    (hf : f ∈ d.Fields)
    (hres : ∀ g ∈ d.Fields, (reg.FindType g.Type_).isSome = true)
    (hnd : (d.Fields.map (fun g => g.Name)).Nodup)
    (hb : reg.BaseType (reg.FindType f.Type_) = .BaseTypeInt8) :
    ∃ st t' props p, jsTypeDef reg (.StructTypeDef d) = .ok (some st, t') ∧
      get st "properties" = some (.obj props) ∧ get props f.Name = some (.obj p) ∧
      p = descriptionOf f.Comment ++ [("type", .str ("_" ++ f.Type_ ++ "_"))] ∧
      get p "format" = none := by
  obtain ⟨st, t', props, f', p, hdef, hprops, hfp, hget⟩ :=
    jsTypeDef_struct_property reg d hres hnd f hf
  have hshape : jsStructField reg f =
      .ok (f, descriptionOf f.Comment ++ [("type", .str ("_" ++ f.Type_ ++ "_"))]) := by
    have hd : (if f.Comment ≠ "" then JSON.set [] "description" (.str f.Comment) else [])
        = descriptionOf f.Comment := rfl
    unfold jsStructField
    simp only [hb]
    rw [hd, set_descriptionOf _ _ _ (by decide)]
  rw [hshape] at hfp
  simp only [Except.ok.injEq, Prod.mk.injEq] at hfp
  obtain ⟨-, rfl⟩ := hfp
  refine ⟨st, t', props, _, hdef, hprops, hget, rfl, ?_⟩
  unfold descriptionOf
  split <;> simp [JSON.get]

/-- C18 (amended), at the field `depth` of `Example.pixel`. -/
theorem jsTypeDef_int8_field_pixel :
    ∃ st t' props p,
      jsTypeDef (NewTypeRegistry Example.pixels) (.StructTypeDef Example.pixel)
        = .ok (some st, t') ∧
      get st "properties" = some (.obj props) ∧ get props "depth" = some (.obj p) ∧
      p = descriptionOf "bits" ++ [("type", .str ("_" ++ "Int8" ++ "_"))] ∧
      get p "format" = none :=
  jsTypeDef_int8_field (NewTypeRegistry Example.pixels) Example.pixel
    ⟨"depth", "Int8", false, "", "bits"⟩ (by decide) (by decide) (by decide) rfl

/-- C19: for every schema with zero types, whatever its name, the registry and
the base path, `jsGenerate` returns exactly the one-entry document holding
`$schema`, the draft-04 identifier, and leaves the schema as it was; the
document has no `definitions` key and `$schema` is its only key. -/
theorem jsGenerate_no_types (newReg : Schema → TypeRegistry) (name basePath : String) :
    jsGenerate newReg ⟨name, []⟩ basePath =
      .ok ([("$schema", .str "http://json-schema.org/draft-04/schema#")], ⟨name, []⟩) ∧
    get [("$schema", JSON.str "http://json-schema.org/draft-04/schema#")] "definitions" = none ∧
    keys [("$schema", JSON.str "http://json-schema.org/draft-04/schema#")] = ["$schema"] := by
  refine ⟨jsGenerate_empty newReg ⟨name, []⟩ basePath rfl, rfl, rfl⟩

/-- C20: for every registry and every type that is well formed for it (the
registry finds the declared type of each field), `jsTypeDef` fails if and only
if the type is plain (none of the struct, map, array, enum and union variants)
and its base type is none of String, Int16, Int32, Int64, Float32, Float64 and
Struct; otherwise it returns normally. -/
theorem jsTypeDef_fails_iff (reg : TypeRegistry) (t : RdlType)
    (hwf : wellFormed reg t = true) :
    ((∃ e, jsTypeDef reg t = .error e) ↔
      (isPlain t = true ∧ reg.BaseType (some t) ∉
        [BaseType.BaseTypeString, .BaseTypeInt16, .BaseTypeInt32, .BaseTypeInt64,
         .BaseTypeFloat32, .BaseTypeFloat64, .BaseTypeStruct])) ∧
    ((∃ r, jsTypeDef reg t = .ok r) ↔
      ¬ (isPlain t = true ∧ reg.BaseType (some t) ∉
        [BaseType.BaseTypeString, .BaseTypeInt16, .BaseTypeInt32, .BaseTypeInt64,
         .BaseTypeFloat32, .BaseTypeFloat64, .BaseTypeStruct])) := by
  cases t with
  | StructTypeDef d =>
    have hres : ∀ f ∈ d.Fields, (reg.FindType f.Type_).isSome = true := by
      simpa [wellFormed, fieldResolves] using hwf
    obtain ⟨fields, props, -, hdef⟩ := jsTypeDef_struct_ok reg d hres
    simp [hdef, isPlain]
  | MapTypeDef d => simp [jsTypeDef, isPlain]
  | ArrayTypeDef d => simp [jsTypeDef, isPlain]
  | EnumTypeDef d => simp [jsTypeDef, isPlain]
  | UnionTypeDef d => simp [jsTypeDef, isPlain]
  | BaseType b =>
    cases hb : reg.BaseType (some (.BaseType b)) <;> simp [jsTypeDef, isPlain, hb]
  | StringTypeDef d =>
    cases hb : reg.BaseType (some (.StringTypeDef d)) <;> simp [jsTypeDef, isPlain, hb]
  | AliasTypeDef d =>
    cases hb : reg.BaseType (some (.AliasTypeDef d)) <;> simp [jsTypeDef, isPlain, hb]

/-- C20, at `Example.tiny`, a plain alias of base type Int8 (fails), and at
`Example.age`, a plain alias of base type Int32 (returns). -/
theorem jsTypeDef_fails_iff_tiny :
    (((∃ e, jsTypeDef (NewTypeRegistry Example.tinies) Example.tiny = .error e) ↔
      (isPlain Example.tiny = true ∧
        (NewTypeRegistry Example.tinies).BaseType (some Example.tiny) ∉
        [BaseType.BaseTypeString, .BaseTypeInt16, .BaseTypeInt32, .BaseTypeInt64,
         .BaseTypeFloat32, .BaseTypeFloat64, .BaseTypeStruct])) ∧
    ((∃ r, jsTypeDef (NewTypeRegistry Example.tinies) Example.tiny = .ok r) ↔
      ¬ (isPlain Example.tiny = true ∧
        (NewTypeRegistry Example.tinies).BaseType (some Example.tiny) ∉
        [BaseType.BaseTypeString, .BaseTypeInt16, .BaseTypeInt32, .BaseTypeInt64,
         .BaseTypeFloat32, .BaseTypeFloat64, .BaseTypeStruct]))) ∧
    (((∃ e, jsTypeDef (NewTypeRegistry Example.numbers) Example.age = .error e) ↔
      (isPlain Example.age = true ∧
        (NewTypeRegistry Example.numbers).BaseType (some Example.age) ∉
        [BaseType.BaseTypeString, .BaseTypeInt16, .BaseTypeInt32, .BaseTypeInt64,
         .BaseTypeFloat32, .BaseTypeFloat64, .BaseTypeStruct])) ∧
    ((∃ r, jsTypeDef (NewTypeRegistry Example.numbers) Example.age = .ok r) ↔
      ¬ (isPlain Example.age = true ∧
        (NewTypeRegistry Example.numbers).BaseType (some Example.age) ∉
        [BaseType.BaseTypeString, .BaseTypeInt16, .BaseTypeInt32, .BaseTypeInt64,
         .BaseTypeFloat32, .BaseTypeFloat64, .BaseTypeStruct]))) :=
  ⟨jsTypeDef_fails_iff (NewTypeRegistry Example.tinies) Example.tiny rfl,
   jsTypeDef_fails_iff (NewTypeRegistry Example.numbers) Example.age rfl⟩
